import Mathlib

set_option autoImplicit false

/-!
# A verification development for UUID.js (`src/UUID.ts`)

Shallow embedding of the UUID generator/parser: the `Identifier` entity and
its string encodings, the `_getIntAligner` field codec, the `_getRandomInt`
random source, the `_getTimeFieldValues` time converter, the version-1
state machine (`UUIDState`, `genV1`, `resetState`) and the strict `parse`
grammar.  JS numbers appearing here are always integers; they are embedded
as `Int`/`Nat`, with the 32-bit coercions performed by the bitwise
operators made explicit (`x & (2^k - 1)` on the values arising here equals
`x mod 2^k`, `x >>> k` on the nonnegative values arising here equals
`x / 2^k`).  The clock and the `Math.random()` draws are oracle arguments.
-/

/-- The ASCII whitespace characters of the regex class `\s` used by `parse`
(space, tab, and the line terminators). -/
def isSpace (c : Char) : Bool :=
  decide (c.toNat = 32) || decide (c.toNat = 9) || decide (c.toNat = 10) ||
  decide (c.toNat = 13) || decide (c.toNat = 11) || decide (c.toNat = 12)

/-- The character class `[0-9a-f]` under the regex's case-insensitive flag:
decimal digits, lowercase `a`-`f` and uppercase `A`-`F`. -/
def isHexDigit (c : Char) : Bool :=
  (decide (48 ≤ c.toNat) && decide (c.toNat ≤ 57)) ||
  (decide (97 ≤ c.toNat) && decide (c.toNat ≤ 102)) ||
  (decide (65 ≤ c.toNat) && decide (c.toNat ≤ 70))

/-- Lowercase hexadecimal digits: the characters `Number.prototype.toString(16)`
produces, and the alphabet of the canonical string form. -/
def isLowerHex (c : Char) : Bool :=
  (decide (48 ≤ c.toNat) && decide (c.toNat ≤ 57)) ||
  (decide (97 ≤ c.toNat) && decide (c.toNat ≤ 102))

/-- Numeric value of one hexadecimal digit, as read by `parseInt(-, 16)`. -/
def hexDigitVal (c : Char) : Nat :=
  if 48 ≤ c.toNat ∧ c.toNat ≤ 57 then c.toNat - 48
  else if 97 ≤ c.toNat ∧ c.toNat ≤ 102 then c.toNat - 87
  else if 65 ≤ c.toNat ∧ c.toNat ≤ 70 then c.toNat - 55
  else 0

/-- `parseInt(l, 16)` on a string of hexadecimal digits, most significant
digit first. -/
def hexVal (l : List Char) : Nat := l.foldl (fun a c => a * 16 + hexDigitVal c) 0

/-- Fuel-indexed digit rendering; `toChars` below instantiates the fuel.
Digits come out most significant first, with `Nat.digitChar` giving the
lowercase digit characters that JS `Number.prototype.toString(radix)`
produces. -/
def toCharsFuel (radix : Nat) : Nat → Nat → List Char
  | 0, _ => []
  | fuel + 1, n =>
    if n < radix then [Nat.digitChar n]
    else toCharsFuel radix fuel (n / radix) ++ [Nat.digitChar (n % radix)]

/-- `num.toString(radix)` for a nonnegative integer `num`: its base-`radix`
digits without leading zeros (`"0"` for zero). -/
def toChars (radix n : Nat) : List Char := toCharsFuel radix (n + 1) n

/-- The zero-padding loop inside the closure returned by
`UUID._getIntAligner(radix)`: starting from `i = length - str.length` and the
chunk `z = "0"`, each iteration prepends the chunk when the low bit of `i` is
set, then halves `i` and doubles the chunk.  Fuel-indexed (the first argument
is fuel); `padLoop` below instantiates the fuel. -/
def padLoopFuel : Nat → Nat → List Char → List Char → List Char
  | 0, _, _, str => str
  | fuel + 1, i, z, str =>
    if i = 0 then str
    else padLoopFuel fuel (i / 2) (z ++ z) (if i % 2 = 1 then z ++ str else str)

/-- The padding loop entered with counter `i`; `i` units of fuel always
suffice because the counter at least halves each iteration. -/
def padLoop (i : Nat) (z str : List Char) : List Char := padLoopFuel i i z str

/-- The closure returned by `UUID._getIntAligner(radix)` applied to
`(num, length)`: render `num` in base `radix` (with a leading `-` for negative
numbers, as JS `toString` does) and left-pad the result with `'0'` to `length`
characters; a representation already at least `length` long is returned
unchanged (no truncation). -/
def alignChars (radix : Nat) (num : Int) (length : Nat) : List Char :=
  let str := if num < 0 then '-' :: toChars radix num.natAbs else toChars radix num.toNat
  padLoop (length - str.length) ['0'] str

/-- The `Identifier` entity: the six integer fields stored by `_init`
(`UUID.FIELD_NAMES` order).  `parseInt(arguments[i] || 0)` is the identity on
the integer arguments that reach `_init`, so the stored `intFields` are the
constructor arguments themselves; the string representations are derived
below exactly as `_init` derives them. -/
structure UUID where
  timeLow : Int
  timeMid : Int
  timeHiAndVersion : Int
  clockSeqHiAndReserved : Int
  clockSeqLow : Int
  node : Int
deriving DecidableEq

/-- `UUID.FIELD_SIZES`: bit widths of the six fields. -/
def UUID.FIELD_SIZES : List Nat := [32, 16, 16, 8, 8, 48]

/-- `this.intFields` in field order. -/
def UUID.intFields (u : UUID) : List Int :=
  [u.timeLow, u.timeMid, u.timeHiAndVersion, u.clockSeqHiAndReserved,
   u.clockSeqLow, u.node]

/-- `this.bitFields[i] = bin(intValue, sizes[i])`. -/
def UUID.bitFields (u : UUID) : List (List Char) :=
  (u.intFields.zip UUID.FIELD_SIZES).map fun p => alignChars 2 p.1 p.2

/-- `this.hexFields[i] = hex(intValue, sizes[i] / 4)`. -/
def UUID.hexFields (u : UUID) : List (List Char) :=
  (u.intFields.zip UUID.FIELD_SIZES).map fun p => alignChars 16 p.1 (p.2 / 4)

/-- `this.hexString` as a character list:
`hexFields[0] + "-" + hexFields[1] + "-" + hexFields[2] + "-" +
 hexFields[3] + hexFields[4] + "-" + hexFields[5]`. -/
def UUID.hexChars (u : UUID) : List Char :=
  (u.hexFields.getD 0 []) ++ '-' :: (u.hexFields.getD 1 [])
    ++ '-' :: (u.hexFields.getD 2 [])
    ++ '-' :: ((u.hexFields.getD 3 []) ++ (u.hexFields.getD 4 []))
    ++ '-' :: (u.hexFields.getD 5 [])

/-- `this.hexString`. -/
def UUID.hexString (u : UUID) : String := String.mk u.hexChars

/-- `this.bitString`: the 6 binary fields joined. -/
def UUID.bitString (u : UUID) : String := String.mk u.bitFields.flatten

/-- `this.hexNoDelim`: the 6 hex fields joined. -/
def UUID.hexNoDelim (u : UUID) : String := String.mk u.hexFields.flatten

/-- `this.urn`. -/
def UUID.urn (u : UUID) : String := "urn:uuid:" ++ u.hexString

/-- `this.version = (this.intFields[2] >> 12) & 0xF`: JS `>>` is an arithmetic
shift (floor division by `2^12`) and the 4-bit mask keeps the low nibble. -/
def UUID.version (u : UUID) : Int := Int.fdiv u.timeHiAndVersion 4096 % 16

/-- `UUID.prototype.equals(uuid)`.  The argument is `Option UUID`: `none`
stands for any JS value that is not a `UUID` instance (including `null`),
rejected by the `instanceof` guard with result `false`; `some v` is an
instance, compared over the six `intFields`. -/
def UUID.equals (u : UUID) (x : Option UUID) : Bool :=
  match x with
  | none => false
  | some v => (u.intFields.zip v.intFields).all fun p => p.1 == p.2

/-- `UUID._getRandomInt(x)`.  The two potential `Math.random()` draws are the
oracle inputs `r1 r2 : ℚ` (a genuine generator keeps them in `[0,1)`); the
result `none` models the `NaN` returned for widths outside `[0, 53]` (the
`InvalidArgument` outcome, distinguishable from every numeric result).
`0 | v` truncates toward zero; on the nonnegative sub-`2^31` products taken
here this is the floor, and `1 << k` is `2^k`. -/
def _getRandomInt (x : Int) (r1 r2 : ℚ) : Option Int :=
  if x < 0 then none
  else if x ≤ 30 then some ⌊r1 * 2 ^ x.toNat⌋
  else if x ≤ 53 then
    some (⌊r1 * 2 ^ (30 : Nat)⌋ + ⌊r2 * 2 ^ (x - 30).toNat⌋ * 2 ^ (30 : Nat))
  else none

/-- The result record of `UUID._getTimeFieldValues`. -/
structure TimeFields where
  low : Int
  mid : Int
  hi : Int
  timestamp : Int
deriving DecidableEq

/-- `Date.UTC(1582, 9, 15)` (JS months are 0-based, so this is
1582-10-15T00:00:00Z): 141427 days before the epoch. -/
def DateUTC_1582_10_15 : Int := -12219292800000

/-- Fuel-indexed bit length of a natural number (0 for 0); `bitLen` below
instantiates the fuel. -/
def bitsFuel : Nat → Nat → Nat
  | 0, _ => 0
  | fuel + 1, n => if n = 0 then 0 else bitsFuel fuel (n / 2) + 1

/-- Number of significant binary digits of `n`. -/
def bitLen (n : Nat) : Nat := bitsFuel (n + 1) n

/-- Round a nonnegative integer to 53 significant bits, ties to even: the
value an IEEE-754 double multiplication stores when its exact product is the
integer `N` scaled by a power of two.  Identity below `2^53`; otherwise the
trailing `bitLen N - 53` bits are rounded away (up on a remainder above the
halfway point, and on an exact tie when the kept part is odd). -/
def fl53 (N : Nat) : Nat :=
  let b := bitLen N
  if b ≤ 53 then N
  else
    let s := b - 53
    let q := N / 2 ^ s
    let r := N % 2 ^ s
    if 2 ^ (s - 1) < r ∨ (r = 2 ^ (s - 1) ∧ q % 2 = 1) then (q + 1) * 2 ^ s
    else q * 2 ^ s

/-- `UUID._getTimeFieldValues(time)`.  On JS numbers:
`ts & 0xFFFFFFF` wraps to 32 bits and masks the low 28, i.e. `ts mod 2^28`,
and its product with 10000 stays below `2^42`, so `low` is computed exactly;
`ts / 0x100000000` is float division by a power of two, exact for the
`|ts| < 2^53` values a clock produces; the subsequent `* 10000` is a double
multiplication whose exact value is `ts * 10000 * 2^-32`, stored rounded to
53 significant bits — i.e. `±fl53 (|ts| * 10000) * 2^-32`; the `& 0xFFFFFFF`
applies ToInt32 (truncation toward zero, here `Int.tdiv` by `2^32` of the
rounded numerator) and keeps the low 28 two's-complement bits (`mod 2^28`);
`hm >>> 16` on `hm < 2^28` is `hm / 2^16`. -/
def _getTimeFieldValues (time : Int) : TimeFields :=
  let ts : Int := time - DateUTC_1582_10_15
  let prodAbs : Nat := fl53 (ts.natAbs * 10000)
  let prod : Int := if ts < 0 then -(prodAbs : Int) else (prodAbs : Int)
  let hm : Int := Int.tdiv prod 4294967296 % 268435456
  { low := ts % 268435456 * 10000 % 4294967296
    mid := hm % 65536
    hi := hm / 65536
    timestamp := ts }

/-- Modelled from the spec: `gregorian_epoch_ms`, the milliseconds of
1582-10-15T00:00:00Z. -/
def gregorianEpochMs : Int := -12219292800000

/-- Modelled from the spec: §4.4's exact formulas, written from the spec's
words — `delta = now_ms - gregorian_epoch_ms`,
`highPart = ((delta / 2^32) * 10000) & 0xFFFFFFF`,
`low = ((delta & 0xFFFFFFF) * 10000) mod 2^32`, `mid = highPart & 0xFFFF`,
`hi = highPart >> 16` — with the exact reading of the operators: exact
division by `2^32` followed by truncation toward zero under the 28-bit mask,
and low-bit masks as `mod`. -/
def specTimeFields (nowMs : Int) : TimeFields :=
  let delta : Int := nowMs - gregorianEpochMs
  let highPart : Int := Int.tdiv (delta * 10000) 4294967296 % 268435456
  { low := delta % 268435456 * 10000 % 4294967296
    mid := highPart % 65536
    hi := highPart / 65536
    timestamp := delta }

/-- The process-wide `UUIDState` record mutated by `genV1`. -/
structure UUIDState where
  timestamp : Int
  sequence : Nat
  node : Nat
  tick : Nat
deriving DecidableEq

/-- The `UUIDState` constructor body, its random draws passed as oracles:
`s14 = rand(14)`, `n8 = rand(8)`, `n40 = rand(40)`, `t4 = rand(4)`;
`(n8 | 1) * 0x10000000000 + n40` sets the multicast bit of the node. -/
def UUIDState.init (s14 n8 n40 t4 : Nat) : UUIDState :=
  { timestamp := 0
    sequence := s14
    node := (n8 ||| 1) * 1099511627776 + n40
    tick := t4 }

/-- `UUID.resetState()`: replaces the state with `new UUIDState()` (fresh
random draws passed as oracles). -/
def resetState (s14 n8 n40 t4 : Nat) : UUIDState := UUIDState.init s14 n8 n40 t4

/-- `UUID.genV1()` with the environment explicit: `now` is
`new Date().getTime()`, `coin` is the comparison `Math.random() < _tsRatio`,
and `r4` is the value drawn by `_getRandomInt(4)` in whichever branch draws
one.  On the values arising here: `st.sequence &= 0x3FFF` is `% 16384`,
`st.sequence >>> 8` is `/ 256` and its `| 0x80` on a 6-bit value is `+ 128`,
`(tf.hi & 0xFFF) | 0x1000` is `% 4096 + 4096` (the OR sets a bit above the
mask).  Returns the built `Identifier` and the updated state.

`genV1Update` is the state-update phase (the `if`/`else if`/`else` ladder at
the top of `genV1`); `genV1` then formats the fields from the updated state
and applies the 14-bit sequence mask, which is also stored back. -/
def genV1Update (now : Int) (coin : Bool) (r4 : Nat) (st : UUIDState) : UUIDState :=
  if now ≠ st.timestamp then
    { st with
      sequence := if now < st.timestamp then st.sequence + 1 else st.sequence
      timestamp := now
      tick := r4 }
  else if coin ∧ st.tick < 9984 then
    { st with tick := st.tick + 1 + r4 }
  else
    { st with sequence := st.sequence + 1 }

def genV1 (now : Int) (coin : Bool) (r4 : Nat) (st : UUIDState) : UUID × UUIDState :=
  let st1 : UUIDState := genV1Update now coin r4 st
  let tf := _getTimeFieldValues st1.timestamp
  let tl : Int := tf.low + (st1.tick : Int)
  let thav : Int := tf.hi % 4096 + 4096
  let seq2 : Nat := st1.sequence % 16384
  let cshar : Nat := seq2 / 256 + 128
  let csl : Nat := seq2 % 256
  ({ timeLow := tl
     timeMid := tf.mid
     timeHiAndVersion := thav
     clockSeqHiAndReserved := (cshar : Int)
     clockSeqLow := (csl : Int)
     node := (st1.node : Int) },
   { st1 with sequence := seq2 })

/-- States reachable by the process-wide `UUID._state`: the initial
`new UUIDState()` (with in-range random draws), every `genV1` post-state
(with an in-range 4-bit draw), and every `resetState` result. -/
inductive Reachable : UUIDState → Prop
  | init (s14 n8 n40 t4 : Nat) (hs : s14 < 16384) (h8 : n8 < 256)
      (h40 : n40 < 1099511627776) (ht : t4 < 16) :
      Reachable (UUIDState.init s14 n8 n40 t4)
  | step (st : UUIDState) (now : Int) (coin : Bool) (r4 : Nat) (hr : r4 < 16)
      (h : Reachable st) : Reachable (genV1 now coin r4 st).2
  | reset (st : UUIDState) (h : Reachable st) (s14 n8 n40 t4 : Nat)
      (hs : s14 < 16384) (h8 : n8 < 256) (h40 : n40 < 1099511627776)
      (ht : t4 < 16) : Reachable (resetState s14 n8 n40 t4)

/-- Which alternative of the optional regex group `(urn:uuid:|\x7b)?`
matched: none, the opening brace, or the (case-insensitive) URN scheme.
The code keeps the matched text `l = r[1] || ""` and tests
`l === "{"` / `l.toLowerCase() === "urn:uuid:"`; since the group can only
match those two shapes, the tag records the same information. -/
inductive PreKind
  | noPre
  | bracePre
  | urnPre
deriving DecidableEq

/-- ASCII lowercasing on code points (`String.prototype.toLowerCase` on the
characters the regex can match here). -/
def lowerN (n : Nat) : Nat := if 65 ≤ n ∧ n ≤ 90 then n + 32 else n

/-- Case-insensitive match of the fixed lowercase pattern `p` against the
head of `l`; returns the rest of `l` past the match. -/
def matchCI : List Char → List Char → Option (List Char)
  | [], l => some l
  | _ :: _, [] => none
  | p :: ps, c :: l => if lowerN c.toNat = p.toNat then matchCI ps l else none

/-- The characters of the pattern `urn:uuid:`. -/
def urnPat : List Char := ['u', 'r', 'n', ':', 'u', 'u', 'i', 'd', ':']

/-- Exactly `n` characters of the class `[0-9a-f]` (case-insensitive), with
the rest of the input. -/
def takeHex : Nat → List Char → Option (List Char × List Char)
  | 0, l => some ([], l)
  | _ + 1, [] => none
  | n + 1, c :: l =>
    if isHexDigit c then (takeHex n l).map fun p => (c :: p.1, p.2) else none

/-- One literal `-` of the pattern. -/
def expectDash : List Char → Option (List Char)
  | c :: l => if c = '-' then some l else none
  | [] => none

/-- The six captured hex groups of the parse regex. -/
structure Groups where
  g1 : List Char
  g2 : List Char
  g3 : List Char
  g4 : List Char
  g5 : List Char
  g6 : List Char

/-- The fixed body of the regex between the optional prefix and suffix:
`8hex "-" 4hex "-" 4hex "-" 2hex 2hex "-" 12hex`; returns the six captured
groups and the unconsumed rest of the input. -/
def parseGroups (l : List Char) : Option (Groups × List Char) := do
  let (g1, a1) ← takeHex 8 l
  let b1 ← expectDash a1
  let (g2, a2) ← takeHex 4 b1
  let b2 ← expectDash a2
  let (g3, a3) ← takeHex 4 b2
  let b3 ← expectDash a3
  let (g4, a4) ← takeHex 2 b3
  let (g5, a5) ← takeHex 2 a4
  let b5 ← expectDash a5
  let (g6, a6) ← takeHex 12 b5
  pure (⟨g1, g2, g3, g4, g5, g6⟩, a6)

/-- `UUID.parse(strId)` on the character list.  The regex
`^\s*(urn:uuid:|\x7b)?([0-9a-f]\x7b8\x7d)-...(\x7d)?\s*$` (flag `i`) is
matched deterministically: wherever an optional group could backtrack, the
fallback is impossible (`u`, `{`, `}` and whitespace are not hex digits), so
committing to the greedy choice is equivalent to the regex's search.  After
the match, the code's consistency test on prefix and suffix —
`(l + t === "") || (l === "{" && t === "}") ||
 (l.toLowerCase() === "urn:uuid:" && t === "")` — admits exactly the three
tag combinations below.  `none` models the `null` result; the function is
total, which is the never-throws guarantee. -/
def parseChars (s : List Char) : Option UUID :=
  let s1 := s.dropWhile isSpace
  let pre : PreKind × List Char :=
    match matchCI urnPat s1 with
    | some r => (PreKind.urnPre, r)
    | none =>
      if s1.head? = some '{' then (PreKind.bracePre, s1.tail)
      else (PreKind.noPre, s1)
  match parseGroups pre.2 with
  | none => none
  | some (gs, a6) =>
    let suf : Bool × List Char :=
      if a6.head? = some '}' then (true, a6.tail) else (false, a6)
    let ok : Bool :=
      match pre.1, suf.1 with
      | PreKind.noPre, false => true
      | PreKind.bracePre, true => true
      | PreKind.urnPre, false => true
      | _, _ => false
    if suf.2.all isSpace && ok then
      some { timeLow := (hexVal gs.g1 : Int)
             timeMid := (hexVal gs.g2 : Int)
             timeHiAndVersion := (hexVal gs.g3 : Int)
             clockSeqHiAndReserved := (hexVal gs.g4 : Int)
             clockSeqLow := (hexVal gs.g5 : Int)
             node := (hexVal gs.g6 : Int) }
    else none

/-- `UUID.parse` on strings. -/
def parse (s : String) : Option UUID := parseChars s.data

/-- The canonical textual form demanded by §6: five groups of lowercase
hexadecimal digits of lengths 8, 4, 4, 4 and 12, separated by single
hyphens — 36 characters in all, no surrounding brackets. -/
def CanonicalUuidChars (s : List Char) : Prop :=
  s.length = 36 ∧
  ∃ g1 g2 g3 g4 g5 : List Char,
    s = g1 ++ '-' :: g2 ++ '-' :: g3 ++ '-' :: g4 ++ '-' :: g5 ∧
    g1.length = 8 ∧ g2.length = 4 ∧ g3.length = 4 ∧ g4.length = 4 ∧
    g5.length = 12 ∧
    (∀ c ∈ g1, isLowerHex c = true) ∧ (∀ c ∈ g2, isLowerHex c = true) ∧
    (∀ c ∈ g3, isLowerHex c = true) ∧ (∀ c ∈ g4, isLowerHex c = true) ∧
    (∀ c ∈ g5, isLowerHex c = true)

/-- A hex core of the parse grammar: `8hex "-" 4hex "-" 4hex "-" 2hex 2hex
"-" 12hex`, hex digits of either case. -/
def ValidCoreChars (s : List Char) : Prop :=
  ∃ g1 g2 g3 g4 g5 g6 : List Char,
    s = g1 ++ '-' :: g2 ++ '-' :: g3 ++ '-' :: (g4 ++ g5) ++ '-' :: g6 ∧
    g1.length = 8 ∧ g2.length = 4 ∧ g3.length = 4 ∧ g4.length = 2 ∧
    g5.length = 2 ∧ g6.length = 12 ∧
    (∀ c ∈ g1, isHexDigit c = true) ∧ (∀ c ∈ g2, isHexDigit c = true) ∧
    (∀ c ∈ g3, isHexDigit c = true) ∧ (∀ c ∈ g4, isHexDigit c = true) ∧
    (∀ c ∈ g5, isHexDigit c = true) ∧ (∀ c ∈ g6, isHexDigit c = true)

/-- A reachable state used for the clock-regression counterexample: the
initial state drew the maximal 14-bit sequence 16383, and one `genV1` call
at clock 5 stored `timestamp = 5` while leaving the sequence at 16383. -/
def c3State : UUIDState := (genV1 5 false 0 (UUIDState.init 16383 0 0 0)).2

/-- A clock value whose 28-bit low part scaled by 10000 lands on
`2^32 - 16`, the largest value the `low` time field can take (241773935 ms
after the epoch, i.e. 1970-01-03T19:09:33.935Z). -/
def c4Clock : Int := 241773935

/-- A reachable state one `genV1` call deep: at clock `c4Clock`, after the
call drew 15 as its fresh 4-bit tick. -/
def c4State : UUIDState := (genV1 c4Clock false 15 (UUIDState.init 0 0 0 0)).2

/-- An `Identifier` constructed directly with an oversized `timeLow = 2^32`
(33 bits wide, one more than the declared 32). -/
def c8Uuid : UUID :=
  { timeLow := 4294967296, timeMid := 0, timeHiAndVersion := 0,
    clockSeqHiAndReserved := 0, clockSeqLow := 0, node := 0 }

/-- A decomposition witnessing that the parse grammar accepted `s`:
optional surrounding whitespace around one of the three consistent
prefix/suffix pairings — nothing/nothing, brace/brace, or a case variant of
`urn:uuid:` with no trailing brace — enclosing a valid hex core. -/
def ConsistentShape (s : List Char) : Prop :=
  ∃ w1 pre core suf w2 : List Char,
    s = w1 ++ pre ++ core ++ suf ++ w2 ∧
    (∀ c ∈ w1, isSpace c = true) ∧ (∀ c ∈ w2, isSpace c = true) ∧
    ValidCoreChars core ∧
    ((pre = [] ∧ suf = []) ∨ (pre = ['{'] ∧ suf = ['}']) ∨
      (pre.map (fun c => lowerN c.toNat) = urnPat.map Char.toNat ∧ suf = []))

/-! ## Codec lemmas -/

theorem toCharsFuel_congr (radix : Nat) (hr : 2 ≤ radix) :
    ∀ n f g, n < f → n < g → toCharsFuel radix f n = toCharsFuel radix g n := by
  intro n
  induction n using Nat.strong_induction_on with
  | _ n ih =>
    intro f g hf hg
    match f, g, hf, hg with
    | f + 1, g + 1, _, _ =>
      simp only [toCharsFuel]
      by_cases h : n < radix
      · simp [h]
      · simp only [if_neg h]
        have hd : n / radix < n := Nat.div_lt_self (by omega) (by omega)
        rw [ih (n / radix) hd f g (by omega) (by omega)]

theorem toChars_eq (radix : Nat) (hr : 2 ≤ radix) (n : Nat) :
    toChars radix n = if n < radix then [Nat.digitChar n]
      else toChars radix (n / radix) ++ [Nat.digitChar (n % radix)] := by
  by_cases h : n < radix
  · simp [toChars, toCharsFuel, h]
  · simp only [toChars, toCharsFuel, if_neg h]
    congr 1
    exact toCharsFuel_congr radix hr (n / radix) n (n / radix + 1)
      (Nat.div_lt_self (by omega) (by omega)) (Nat.lt_succ_self _)

theorem toChars_mem (radix : Nat) (hr : 2 ≤ radix) (n : Nat) :
    ∀ c ∈ toChars radix n, ∃ d, d < radix ∧ c = Nat.digitChar d := by
  induction n using Nat.strong_induction_on with
  | _ n ih =>
    intro c hc
    rw [toChars_eq radix hr n] at hc
    by_cases h : n < radix
    · rw [if_pos h] at hc
      simp at hc
      exact ⟨n, h, hc⟩
    · rw [if_neg h] at hc
      rcases List.mem_append.mp hc with h1 | h2
      · exact ih (n / radix) (Nat.div_lt_self (by omega) (by omega)) c h1
      · simp at h2
        exact ⟨n % radix, Nat.mod_lt n (by omega), h2⟩

theorem toChars_length_le (radix : Nat) (hr : 2 ≤ radix) :
    ∀ n k, 1 ≤ k → n < radix ^ k → (toChars radix n).length ≤ k := by
  intro n
  induction n using Nat.strong_induction_on with
  | _ n ih =>
    intro k hk hn
    rw [toChars_eq radix hr n]
    by_cases h : n < radix
    · simpa [h] using hk
    · rw [if_neg h, List.length_append]
      have hk2 : 2 ≤ k := by
        rcases Nat.lt_or_ge k 2 with h2 | h2
        · interval_cases k
          rw [pow_one] at hn; omega
        · exact h2
      have hdiv : n / radix < radix ^ (k - 1) := by
        rw [Nat.div_lt_iff_lt_mul (by omega)]
        calc n < radix ^ k := hn
          _ = radix ^ (k - 1) * radix := by
              rw [← pow_succ]; congr 1; omega
      have := ih (n / radix) (Nat.div_lt_self (by omega) (by omega)) (k - 1)
        (by omega) hdiv
      simp only [List.length_singleton]
      omega

theorem toChars_length_ge (radix : Nat) (hr : 2 ≤ radix) :
    ∀ n k, radix ^ k ≤ n → k + 1 ≤ (toChars radix n).length := by
  intro n
  induction n using Nat.strong_induction_on with
  | _ n ih =>
    intro k hn
    rw [toChars_eq radix hr n]
    by_cases h : n < radix
    · rw [if_pos h]
      have : k = 0 := by
        by_contra hc
        have : radix ≤ radix ^ k := Nat.le_self_pow hc radix
        omega
      simp [this]
    · rw [if_neg h, List.length_append]
      cases k with
      | zero => simp only [List.length_singleton]; omega
      | succ k' =>
        have hdiv : radix ^ k' ≤ n / radix := by
          rw [Nat.le_div_iff_mul_le (by omega)]
          calc radix ^ k' * radix = radix ^ (k' + 1) := (pow_succ radix k').symm
            _ ≤ n := hn
        have := ih (n / radix) (Nat.div_lt_self (by omega) (by omega)) k' hdiv
        simp only [List.length_singleton]
        omega

theorem hexVal_append_singleton (l : List Char) (c : Char) :
    hexVal (l ++ [c]) = hexVal l * 16 + hexDigitVal c := by
  simp [hexVal, List.foldl_append]

theorem hexDigitVal_digitChar (d : Nat) (hd : d < 16) :
    hexDigitVal (Nat.digitChar d) = d := by
  interval_cases d <;> decide

theorem hexVal_toChars (n : Nat) : hexVal (toChars 16 n) = n := by
  induction n using Nat.strong_induction_on with
  | _ n ih =>
    rw [toChars_eq 16 (by omega) n]
    by_cases h : n < 16
    · rw [if_pos h]
      simp [hexVal, List.foldl, hexDigitVal_digitChar n h]
    · rw [if_neg h, hexVal_append_singleton,
        ih (n / 16) (Nat.div_lt_self (by omega) (by omega)),
        hexDigitVal_digitChar (n % 16) (Nat.mod_lt n (by omega))]
      omega

theorem hexVal_replicate_zero (j : Nat) (l : List Char) :
    hexVal (List.replicate j '0' ++ l) = hexVal l := by
  induction j with
  | zero => rfl
  | succ j ih =>
    rw [List.replicate_succ, List.cons_append]
    have h0 : hexDigitVal '0' = 0 := by decide
    simpa [hexVal, List.foldl, h0] using ih

theorem flatten_replicate_double (k : Nat) (w : List Char) :
    (List.replicate k (w ++ w)).flatten = (List.replicate (2 * k) w).flatten := by
  induction k with
  | zero => rfl
  | succ k ih =>
    simp only [List.replicate_succ, List.flatten_cons, ih,
      show 2 * (k + 1) = 2 * k + 1 + 1 from by omega]
    simp [List.replicate_succ, List.flatten_cons, List.append_assoc]

theorem flatten_replicate_add (a b : Nat) (w : List Char) :
    (List.replicate (a + b) w).flatten
      = (List.replicate a w).flatten ++ (List.replicate b w).flatten := by
  induction a with
  | zero => simp
  | succ a ih =>
    simp only [show a + 1 + b = (a + b) + 1 from by omega, List.replicate_succ,
      List.flatten_cons, ih, List.append_assoc]

theorem flatten_replicate_single (i : Nat) :
    (List.replicate i ['0']).flatten = List.replicate i '0' := by
  induction i with
  | zero => rfl
  | succ i ih => simp [List.replicate_succ, ih]

theorem padLoopFuel_eq : ∀ i f (z str : List Char), i ≤ f →
    padLoopFuel f i z str = (List.replicate i z).flatten ++ str := by
  intro i
  induction i using Nat.strong_induction_on with
  | _ i ih =>
    intro f z str hf
    cases i with
    | zero => cases f <;> simp [padLoopFuel]
    | succ i' =>
      obtain ⟨f', rfl⟩ : ∃ f'', f = f'' + 1 := ⟨f - 1, by omega⟩
      simp only [padLoopFuel, if_neg (by omega : ¬(i' + 1 = 0))]
      rw [ih ((i' + 1) / 2) (by omega) f' (z ++ z) _ (by omega)]
      rw [flatten_replicate_double]
      by_cases hodd : (i' + 1) % 2 = 1
      · rw [if_pos hodd]
        have hsum : i' + 1 = 2 * ((i' + 1) / 2) + 1 := by omega
        conv_rhs => rw [hsum]
        rw [flatten_replicate_add]
        simp [List.append_assoc]
      · rw [if_neg hodd]
        have hsum : i' + 1 = 2 * ((i' + 1) / 2) := by omega
        conv_rhs => rw [hsum]

theorem padLoop_eq (i : Nat) (z str : List Char) :
    padLoop i z str = (List.replicate i z).flatten ++ str :=
  padLoopFuel_eq i i z str le_rfl

theorem alignChars_eq (radix : Nat) (num : Int) (len : Nat) (h : 0 ≤ num) :
    alignChars radix num len =
      List.replicate (len - (toChars radix num.toNat).length) '0'
        ++ toChars radix num.toNat := by
  unfold alignChars
  rw [if_neg (not_lt.mpr h), padLoop_eq, flatten_replicate_single]

theorem alignChars_length (radix : Nat) (hr : 2 ≤ radix) (num : Int) (len : Nat)
    (h0 : 0 ≤ num) (hlen : 1 ≤ len) (hlt : num < (radix : Int) ^ len) :
    (alignChars radix num len).length = len := by
  rw [alignChars_eq radix num len h0, List.length_append, List.length_replicate]
  have h1 : num.toNat < radix ^ len := by
    have h2 : (num.toNat : Int) < ((radix ^ len : Nat) : Int) := by
      rw [Int.toNat_of_nonneg h0]; push_cast; exact hlt
    exact_mod_cast h2
  have := toChars_length_le radix hr num.toNat len hlen h1
  omega

theorem lowerHex_isHexDigit (c : Char) (h : isLowerHex c = true) :
    isHexDigit c = true := by
  simp only [isLowerHex, isHexDigit, Bool.or_eq_true, Bool.and_eq_true,
    decide_eq_true_eq] at *
  omega

theorem alignChars_lowerHex (radix : Nat) (hr : 2 ≤ radix) (hr16 : radix ≤ 16)
    (num : Int) (len : Nat) (h0 : 0 ≤ num) :
    ∀ c ∈ alignChars radix num len, isLowerHex c = true := by
  rw [alignChars_eq radix num len h0]
  intro c hc
  rcases List.mem_append.mp hc with h | h
  · rw [List.eq_of_mem_replicate h]; decide
  · obtain ⟨d, hd, rfl⟩ := toChars_mem radix hr num.toNat c h
    have : d < 16 := lt_of_lt_of_le hd hr16
    interval_cases d <;> decide

theorem hexVal_alignChars (num : Int) (len : Nat) (h0 : 0 ≤ num) :
    hexVal (alignChars 16 num len) = num.toNat := by
  rw [alignChars_eq 16 num len h0, hexVal_replicate_zero, hexVal_toChars]

/-! ## State machine lemmas -/

theorem genV1_snd (now : Int) (coin : Bool) (r4 : Nat) (st : UUIDState) :
    (genV1 now coin r4 st).2 =
      { genV1Update now coin r4 st with
        sequence := (genV1Update now coin r4 st).sequence % 16384 } := rfl

theorem genV1_fst (now : Int) (coin : Bool) (r4 : Nat) (st : UUIDState) :
    (genV1 now coin r4 st).1 =
      { timeLow :=
          (_getTimeFieldValues (genV1Update now coin r4 st).timestamp).low
            + ((genV1Update now coin r4 st).tick : Int)
        timeMid := (_getTimeFieldValues (genV1Update now coin r4 st).timestamp).mid
        timeHiAndVersion :=
          (_getTimeFieldValues (genV1Update now coin r4 st).timestamp).hi % 4096 + 4096
        clockSeqHiAndReserved :=
          (((genV1Update now coin r4 st).sequence % 16384) / 256 + 128 : Nat)
        clockSeqLow := (((genV1Update now coin r4 st).sequence % 16384) % 256 : Nat)
        node := ((genV1Update now coin r4 st).node : Int) } := rfl

theorem genV1Update_timestamp (now : Int) (coin : Bool) (r4 : Nat) (st : UUIDState) :
    (genV1Update now coin r4 st).timestamp = now := by
  unfold genV1Update
  split_ifs with h1 h2 <;> simp_all

theorem genV1Update_node (now : Int) (coin : Bool) (r4 : Nat) (st : UUIDState) :
    (genV1Update now coin r4 st).node = st.node := by
  unfold genV1Update
  split_ifs <;> rfl

theorem genV1Update_of_change (now : Int) (coin : Bool) (r4 : Nat) (st : UUIDState)
    (h : now ≠ st.timestamp) :
    genV1Update now coin r4 st =
      { st with
        sequence := if now < st.timestamp then st.sequence + 1 else st.sequence
        timestamp := now
        tick := r4 } := by
  unfold genV1Update
  rw [if_pos h]

theorem genV1Update_of_tick (now : Int) (coin : Bool) (r4 : Nat) (st : UUIDState)
    (h : now = st.timestamp) (hc : coin = true) (ht : st.tick < 9984) :
    genV1Update now coin r4 st = { st with tick := st.tick + 1 + r4 } := by
  unfold genV1Update
  rw [if_neg (by simp [h]), if_pos ⟨by simp [hc], ht⟩]

theorem genV1Update_of_seq (now : Int) (coin : Bool) (r4 : Nat) (st : UUIDState)
    (h : now = st.timestamp) (hc : ¬(coin = true ∧ st.tick < 9984)) :
    genV1Update now coin r4 st = { st with sequence := st.sequence + 1 } := by
  unfold genV1Update
  rw [if_neg (by simp [h]), if_neg (by simpa using hc)]

/-- The invariant carried by every reachable state: the stored sequence is
already masked to 14 bits, the node is a 48-bit value, and the tick never
exceeds 9999 (it is reset below 16 on every timestamp change and the
additive branch is guarded by `tick < 9984` with an increment of at most
16). -/
theorem reachable_invariant (st : UUIDState) (h : Reachable st) :
    st.sequence < 16384 ∧ st.node < 281474976710656 ∧ st.tick ≤ 9999 := by
  induction h with
  | init s14 n8 n40 t4 hs h8 h40 ht =>
    refine ⟨hs, ?_, by simpa [UUIDState.init] using (by omega : t4 ≤ 9999)⟩
    have h1 : n8 ||| 1 < 256 :=
      Nat.or_lt_two_pow (n := 8) h8 (by omega)
    simp only [UUIDState.init]
    omega
  | step st now coin r4 hr h ih =>
    obtain ⟨ihs, ihn, iht⟩ := ih
    rw [genV1_snd]
    refine ⟨Nat.mod_lt _ (by omega), ?_, ?_⟩
    · simpa [genV1Update_node] using ihn
    · by_cases h1 : now ≠ st.timestamp
      · rw [genV1Update_of_change now coin r4 st h1]
        simpa using (by omega : r4 ≤ 9999)
      · push_neg at h1
        by_cases h2 : coin = true ∧ st.tick < 9984
        · rw [genV1Update_of_tick now coin r4 st h1 h2.1 h2.2]
          simpa using (by omega : st.tick + 1 + r4 ≤ 9999)
        · rw [genV1Update_of_seq now coin r4 st h1 h2]
          simpa using iht
  | reset st h s14 n8 n40 t4 hs h8 h40 ht ih =>
    refine ⟨hs, ?_, by simpa [resetState, UUIDState.init] using (by omega : t4 ≤ 9999)⟩
    have h1 : n8 ||| 1 < 256 :=
      Nat.or_lt_two_pow (n := 8) h8 (by omega)
    simp only [resetState, UUIDState.init]
    omega

/-- The multicast bit (bit 40, the low bit of the node's first octet) of the
freshly drawn node value is forced to 1 by the `| 1`. -/
theorem node_multicast_bit (n8 n40 : Nat) (h40 : n40 < 1099511627776) :
    ((n8 ||| 1) * 1099511627776 + n40).testBit 40 = true := by
  have hdiv : ((n8 ||| 1) * 1099511627776 + n40) / 1099511627776 = n8 ||| 1 := by
    rw [mul_comm, Nat.mul_add_div (by norm_num), Nat.div_eq_of_lt h40, add_zero]
  have hb : (n8 ||| 1) % 2 = 1 := by
    simp
  rw [Nat.testBit_to_div_mod]
  have h40' : (1099511627776 : Nat) = 2 ^ 40 := by norm_num
  rw [← h40', hdiv]
  simp [hb]

/-! ## Claim theorems: time converter, random source, equality, reset -/

theorem bitsFuel_le : ∀ n f k, n < f → n < 2 ^ k → bitsFuel f n ≤ k := by
  intro n
  induction n using Nat.strong_induction_on with
  | _ n ih =>
    intro f k hf hk
    obtain ⟨f', rfl⟩ : ∃ f'', f = f'' + 1 := ⟨f - 1, by omega⟩
    by_cases h0 : n = 0
    · subst h0
      simp [bitsFuel]
    · simp only [bitsFuel, if_neg h0]
      have hk1 : 1 ≤ k := by
        by_contra hc
        push_neg at hc
        interval_cases k
        norm_num at hk
        omega
      have hpow : 2 ^ k = 2 * 2 ^ (k - 1) := by
        rw [← pow_succ']
        congr 1
        omega
      have h2 : n / 2 < 2 ^ (k - 1) := by omega
      have hlt : n / 2 < n := Nat.div_lt_self (by omega) (by omega)
      have := ih (n / 2) hlt f' (k - 1) (by omega) h2
      omega

theorem fl53_eq_self (N : Nat) (h : N < 2 ^ 53) : fl53 N = N := by
  have hb : bitLen N ≤ 53 := bitsFuel_le N (N + 1) 53 (Nat.lt_succ_self N) h
  simp only [fl53]
  rw [if_pos hb]

set_option maxRecDepth 8192 in
/-- C5 counterexample: at the millisecond timestamp 2192554143087
(2039-06-24T18:49:03.087Z), `delta * 10000` is 58 bits wide and sits exactly
half an ulp below the next double, so the float multiply rounds up:
the code computes `highPart = 33555196` (hence `mid = 764`) while the spec's
exact formula gives `33555195` (hence `mid = 763`) — the fields are not
produced bit for bit at every timestamp. -/
theorem c5_counterexample :
    (_getTimeFieldValues 2192554143087).mid = 764 ∧
    (specTimeFields 2192554143087).mid = 763 ∧
    _getTimeFieldValues 2192554143087 ≠ specTimeFields 2192554143087 := by
  refine ⟨by decide, by decide, by decide⟩

/-- C5 (amended): `_getTimeFieldValues` produces the spec formulas' `low`
and `timestamp` bit for bit at every millisecond timestamp; `highPart`
(hence `mid` and `hi`) is computed from the 53-bit-rounded float product
`(delta / 2^32) * 10000` rather than the exact one, and coincides with the
spec formulas whenever `|delta| * 10000` is exactly representable in a
double (below `2^53`) — at larger (reachable) timestamps the rounding can
shift `highPart`, as the counterexample shows. -/
theorem c5_time_converter_agreement (t : Int) :
    (_getTimeFieldValues t).low = (specTimeFields t).low ∧
    (_getTimeFieldValues t).timestamp = (specTimeFields t).timestamp ∧
    ((t - gregorianEpochMs).natAbs * 10000 < 2 ^ 53 →
      _getTimeFieldValues t = specTimeFields t) := by
  refine ⟨rfl, rfl, fun h => ?_⟩
  have he : DateUTC_1582_10_15 = gregorianEpochMs := rfl
  have hfl : fl53 ((t - gregorianEpochMs).natAbs * 10000)
      = (t - gregorianEpochMs).natAbs * 10000 := fl53_eq_self _ h
  simp only [_getTimeFieldValues, specTimeFields, he]
  have hprod : (if (t - gregorianEpochMs) < 0
      then -((fl53 ((t - gregorianEpochMs).natAbs * 10000) : Nat) : Int)
      else ((fl53 ((t - gregorianEpochMs).natAbs * 10000) : Nat) : Int))
      = (t - gregorianEpochMs) * 10000 := by
    rw [hfl]
    split_ifs with hneg
    · push_cast
      rw [abs_of_nonpos (le_of_lt hneg)]
      ring
    · push_cast
      rw [abs_of_nonneg (not_lt.mp hneg)]
  rw [hprod]

/-- C5 witness: one day after the Gregorian epoch (`delta = 86400000`), the
product is below `2^53`, so the code and the spec formulas agree exactly. -/
theorem c5_witness :
    _getTimeFieldValues (-12219206400000) = specTimeFields (-12219206400000) := by
  have h := c5_time_converter_agreement (-12219206400000)
  exact h.2.2 (by decide)

/-- C10: `equals` returns `false` on any argument that is not a `UUID`
instance (including `null`) without raising an error (the function is
total), and on a `UUID` instance it returns `true` exactly when all six
integer fields agree. -/
theorem c10_equals_contract (u v : UUID) :
    u.equals none = false ∧
    (u.equals (some v) = true ↔ u.intFields = v.intFields) := by
  refine ⟨rfl, ?_⟩
  simp only [UUID.equals, UUID.intFields, List.zip_cons_cons, List.zip_nil_right,
    List.all_cons, List.all_nil, Bool.and_eq_true, beq_iff_eq, Bool.and_true,
    List.cons.injEq, and_true]

/-- C7: widths outside `[0, 53]` make `_getRandomInt` return the
`InvalidArgument`/`NaN` outcome (`none`), distinguishable from every
numeric result; widths inside `[0, 53]`, fed draws from `[0, 1)`, yield an
unsigned integer below `2 ^ width`. -/
theorem c7_random_width_contract (x : Int) (r1 r2 : ℚ) :
    ((x < 0 ∨ 53 < x) → _getRandomInt x r1 r2 = none) ∧
    (0 ≤ x → x ≤ 53 → 0 ≤ r1 → r1 < 1 → 0 ≤ r2 → r2 < 1 →
      ∃ n : Int, _getRandomInt x r1 r2 = some n ∧ 0 ≤ n ∧ n < 2 ^ x.toNat) := by
  constructor
  · intro hx
    unfold _getRandomInt
    rcases hx with h | h
    · rw [if_pos h]
    · rw [if_neg (by omega), if_neg (by omega), if_neg (by omega)]
  · intro h0 h53 hr10 hr11 hr20 hr21
    unfold _getRandomInt
    rw [if_neg (by omega)]
    by_cases h30 : x ≤ 30
    · rw [if_pos h30]
      refine ⟨_, rfl, Int.floor_nonneg.mpr (by positivity), ?_⟩
      rw [Int.floor_lt]
      push_cast
      calc r1 * 2 ^ x.toNat < 1 * 2 ^ x.toNat :=
            mul_lt_mul_of_pos_right hr11 (by positivity)
        _ = 2 ^ x.toNat := one_mul _
    · rw [if_neg h30, if_pos h53]
      have ha0 : 0 ≤ ⌊r1 * 2 ^ (30 : Nat)⌋ := Int.floor_nonneg.mpr (by positivity)
      have hb0 : 0 ≤ ⌊r2 * 2 ^ (x - 30).toNat⌋ := Int.floor_nonneg.mpr (by positivity)
      have ha : ⌊r1 * 2 ^ (30 : Nat)⌋ < 2 ^ (30 : Nat) := by
        rw [Int.floor_lt]
        push_cast
        calc r1 * 2 ^ (30 : Nat) < 1 * 2 ^ (30 : Nat) :=
              mul_lt_mul_of_pos_right hr11 (by positivity)
          _ = 2 ^ (30 : Nat) := one_mul _
      have hb : ⌊r2 * 2 ^ (x - 30).toNat⌋ < 2 ^ (x - 30).toNat := by
        rw [Int.floor_lt]
        push_cast
        calc r2 * 2 ^ (x - 30).toNat < 1 * 2 ^ (x - 30).toNat :=
              mul_lt_mul_of_pos_right hr21 (by positivity)
          _ = 2 ^ (x - 30).toNat := one_mul _
      refine ⟨_, rfl, add_nonneg ha0 (mul_nonneg hb0 (by positivity)), ?_⟩
      have hx' : x.toNat = 30 + (x - 30).toNat := by omega
      have hprod : (0 : Int) < 2 ^ (30 : Nat) * 2 ^ (x - 30).toNat := by positivity
      calc ⌊r1 * 2 ^ (30 : Nat)⌋ + ⌊r2 * 2 ^ (x - 30).toNat⌋ * 2 ^ (30 : Nat)
          ≤ (2 ^ (30 : Nat) - 1) + (2 ^ (x - 30).toNat - 1) * 2 ^ (30 : Nat) := by
            exact add_le_add (by omega)
              (mul_le_mul_of_nonneg_right (by omega) (by positivity))
        _ = 2 ^ (30 : Nat) * 2 ^ (x - 30).toNat - 1 := by ring
        _ < 2 ^ (30 : Nat) * 2 ^ (x - 30).toNat := by omega
        _ = 2 ^ x.toNat := by rw [hx', pow_add]

/-- C7 witness: width 54 signals `InvalidArgument`; width 4 with the draw
one half returns an unsigned integer below 16. -/
theorem c7_witness :
    _getRandomInt 54 0 0 = none ∧
    ∃ n : Int, _getRandomInt 4 (1 / 2) 0 = some n ∧ 0 ≤ n ∧ n < 2 ^ (4 : Int).toNat :=
  ⟨(c7_random_width_contract 54 0 0).1 (Or.inr (by norm_num)),
   (c7_random_width_contract 4 (1 / 2) 0).2 (by norm_num) (by norm_num)
     (by norm_num) (by norm_num) (by norm_num) (by norm_num)⟩

/-- C9 counterexample: a legal reset whose fresh 4-bit draw is 5 leaves
`tick = 5`, not `tick = 0` as the claim demands — the reset reinitializes
the tick with `rand(4)`, it does not zero it. -/
theorem c9_counterexample :
    Reachable (resetState 0 0 0 5) ∧ (resetState 0 0 0 5).tick = 5 :=
  ⟨Reachable.reset _
      (Reachable.init 0 0 0 0 (by omega) (by omega) (by omega) (by omega))
      0 0 0 5 (by omega) (by omega) (by omega) (by omega),
   rfl⟩

/-- C9 (amended): after `resetState`, the state has `timestamp = 0`, a fresh
random 14-bit `sequence`, a fresh random `node` whose multicast bit is
forced to 1, and a fresh random 4-bit `tick` in `[0, 16)` — the tick is
re-randomized, not zeroed. -/
theorem c9_reset_reinitializes (s14 n8 n40 t4 : Nat) (_hs : s14 < 16384)
    (_h8 : n8 < 256) (h40 : n40 < 1099511627776) (ht : t4 < 16) :
    (resetState s14 n8 n40 t4).timestamp = 0 ∧
    (resetState s14 n8 n40 t4).sequence = s14 ∧
    (resetState s14 n8 n40 t4).node = (n8 ||| 1) * 1099511627776 + n40 ∧
    (resetState s14 n8 n40 t4).node.testBit 40 = true ∧
    (resetState s14 n8 n40 t4).tick = t4 ∧
    (resetState s14 n8 n40 t4).tick < 16 :=
  ⟨rfl, rfl, rfl, node_multicast_bit n8 n40 h40, rfl, ht⟩

/-- C9 witness: the reset drawing sequence 7, node bytes (3, 9) and tick 5. -/
theorem c9_witness :
    (resetState 7 3 9 5).timestamp = 0 ∧
    (resetState 7 3 9 5).sequence = 7 ∧
    (resetState 7 3 9 5).node = (3 ||| 1) * 1099511627776 + 9 ∧
    (resetState 7 3 9 5).node.testBit 40 = true ∧
    (resetState 7 3 9 5).tick = 5 ∧
    (resetState 7 3 9 5).tick < 16 :=
  c9_reset_reinitializes 7 3 9 5 (by omega) (by omega) (by omega) (by omega)

/-! ## Claim theorems: clock regression (C3) -/

/-- C3 counterexample: from the reachable state `c3State` (timestamp 5,
sequence 16383), a call with the clock moved back to 3 wraps the sequence
to 0 — the sequence does not strictly increase. -/
theorem c3_counterexample :
    Reachable c3State ∧ (3 : Int) < c3State.timestamp ∧
    ¬ c3State.sequence < (genV1 3 false 0 c3State).2.sequence := by
  refine ⟨Reachable.step _ 5 false 0 (by omega)
      (Reachable.init 16383 0 0 0 (by omega) (by omega) (by omega) (by omega)),
    by decide, by decide⟩

/-- C3 (amended): when the observed clock moves strictly backward, the
stored sequence becomes `(sequence + 1) mod 2^14`: a strict increase in
every case except the wrap from 16383 to 0. -/
theorem c3_clock_regression_increments (st : UUIDState) (now : Int)
    (coin : Bool) (r4 : Nat) (_h : Reachable st) (hlt : now < st.timestamp) :
    (genV1 now coin r4 st).2.sequence = (st.sequence + 1) % 16384 ∧
    (st.sequence + 1 < 16384 →
      st.sequence < (genV1 now coin r4 st).2.sequence) := by
  have hne : now ≠ st.timestamp := ne_of_lt hlt
  have h1 : (genV1 now coin r4 st).2.sequence = (st.sequence + 1) % 16384 := by
    rw [genV1_snd, genV1Update_of_change now coin r4 st hne]
    simp [if_pos hlt]
  refine ⟨h1, fun hlt2 => ?_⟩
  rw [h1, Nat.mod_eq_of_lt hlt2]
  omega

/-- C3 witness: from the reachable initial state with sequence 5, a call at
clock `-1 < 0` stores sequence 6 — a strict increase. -/
theorem c3_witness :
    (genV1 (-1) false 0 (UUIDState.init 5 0 0 0)).2.sequence
      = ((UUIDState.init 5 0 0 0).sequence + 1) % 16384 ∧
    ((UUIDState.init 5 0 0 0).sequence + 1 < 16384 →
      (UUIDState.init 5 0 0 0).sequence
        < (genV1 (-1) false 0 (UUIDState.init 5 0 0 0)).2.sequence) :=
  c3_clock_regression_increments (UUIDState.init 5 0 0 0) (-1) false 0
    (Reachable.init 5 0 0 0 (by omega) (by omega) (by omega) (by omega))
    (by decide)

/-! ## Claim theorems: field overflow policy (C8) -/

theorem alignChars_length_oversized (radix : Nat) (hr : 2 ≤ radix) (num : Int)
    (len : Nat) (h0 : 0 ≤ num) (hge : (radix : Int) ^ len ≤ num) :
    len < (alignChars radix num len).length := by
  rw [alignChars_eq radix num len h0, List.length_append, List.length_replicate]
  have h1 : radix ^ len ≤ num.toNat := by
    have h2 : ((radix ^ len : Nat) : Int) ≤ (num.toNat : Int) := by
      rw [Int.toNat_of_nonneg h0]; push_cast; exact hge
    exact_mod_cast h2
  have := toChars_length_ge radix hr num.toNat len h1
  omega

/-- C8 counterexample: constructing an `Identifier` directly with
`timeLow = 2^32` (one bit wider than the declared 32) stores a 33-character
binary string and a 9-character hex string — the encoding step does not
truncate the value to the declared width. -/
theorem c8_counterexample :
    (c8Uuid.bitFields.getD 0 []).length = 33 ∧
    (c8Uuid.hexFields.getD 0 []).length = 9 := by
  constructor <;> decide

/-- C8 (amended): constructing an `Identifier` with any nonnegative field
value never fails (the construction is total), but the encoding step does
not truncate: for each of the six fields, the stored binary and hex strings
have exactly the declared bit width and its quarter when the value fits the
width, and are strictly longer than that when the value is oversized. -/
theorem c8_encoding_no_truncation (u : UUID) (i : Nat) (hi : i < 6)
    (h0 : 0 ≤ u.intFields.getD i 0) :
    (u.intFields.getD i 0 < 2 ^ UUID.FIELD_SIZES.getD i 0 →
      (u.bitFields.getD i []).length = UUID.FIELD_SIZES.getD i 0 ∧
      (u.hexFields.getD i []).length = UUID.FIELD_SIZES.getD i 0 / 4) ∧
    (2 ^ UUID.FIELD_SIZES.getD i 0 ≤ u.intFields.getD i 0 →
      UUID.FIELD_SIZES.getD i 0 < (u.bitFields.getD i []).length ∧
      UUID.FIELD_SIZES.getD i 0 / 4 < (u.hexFields.getD i []).length) := by
  interval_cases i <;>
    simp only [UUID.bitFields, UUID.hexFields, UUID.intFields, UUID.FIELD_SIZES,
      List.zip_cons_cons, List.zip_nil_right, List.map_cons, List.map_nil,
      List.getD_cons_zero, List.getD_cons_succ] at h0 ⊢ <;>
    refine ⟨fun hlt => ⟨?_, ?_⟩, fun hge => ⟨?_, ?_⟩⟩
  all_goals first
    | exact alignChars_length 2 (by norm_num) _ _ h0 (by norm_num)
        (by exact_mod_cast hlt)
    | exact alignChars_length 16 (by norm_num) _ _ h0 (by norm_num)
        (by norm_num at hlt ⊢; omega)
    | exact alignChars_length_oversized 2 (by norm_num) _ _ h0
        (by exact_mod_cast hge)
    | exact alignChars_length_oversized 16 (by norm_num) _ _ h0
        (by norm_num at hge ⊢; omega)

/-- C8 witness: the oversized `timeLow = 2^32` of `c8Uuid` falls in the
second branch — its stored strings are strictly longer than the declared
32-bit/8-hex widths. -/
theorem c8_witness :
    (c8Uuid.intFields.getD 0 0 < 2 ^ UUID.FIELD_SIZES.getD 0 0 →
      (c8Uuid.bitFields.getD 0 []).length = UUID.FIELD_SIZES.getD 0 0 ∧
      (c8Uuid.hexFields.getD 0 []).length = UUID.FIELD_SIZES.getD 0 0 / 4) ∧
    (2 ^ UUID.FIELD_SIZES.getD 0 0 ≤ c8Uuid.intFields.getD 0 0 →
      UUID.FIELD_SIZES.getD 0 0 < (c8Uuid.bitFields.getD 0 []).length ∧
      UUID.FIELD_SIZES.getD 0 0 / 4 < (c8Uuid.hexFields.getD 0 []).length) :=
  c8_encoding_no_truncation c8Uuid 0 (by omega) (by decide)

/-! ## Claim theorems: constant clock distinctness (C1) -/

/-- C1: from any reachable state, two `genV1` calls that observe the same
clock value (the second reads the millisecond the first stored) never return
field-equal Identifiers: either the tick advanced (changing `timeLow`) or
the sequence moved (changing `clockSeqHiAndReserved` or `clockSeqLow`). -/
theorem c1_constant_clock_distinct (st : UUIDState) (now : Int)
    (cn1 cn2 : Bool) (r1 r2 : Nat) (_h : Reachable st) (_hr1 : r1 < 16)
    (_hr2 : r2 < 16) :
    (genV1 now cn1 r1 st).1.intFields
      ≠ (genV1 now cn2 r2 (genV1 now cn1 r1 st).2).1.intFields ∧
    ((genV1 now cn1 r1 st).1.timeLow
        ≠ (genV1 now cn2 r2 (genV1 now cn1 r1 st).2).1.timeLow ∨
      (genV1 now cn1 r1 st).1.clockSeqHiAndReserved
        ≠ (genV1 now cn2 r2 (genV1 now cn1 r1 st).2).1.clockSeqHiAndReserved ∨
      (genV1 now cn1 r1 st).1.clockSeqLow
        ≠ (genV1 now cn2 r2 (genV1 now cn1 r1 st).2).1.clockSeqLow) := by
  set u1 := (genV1 now cn1 r1 st).1 with hu1
  set st1 := (genV1 now cn1 r1 st).2 with hst1
  set u2 := (genV1 now cn2 r2 st1).1 with hu2
  have hts : st1.timestamp = now := by
    rw [hst1, genV1_snd]
    simp [genV1Update_timestamp]
  have htick : st1.tick = (genV1Update now cn1 r1 st).tick := by
    rw [hst1, genV1_snd]
  have hseqv : st1.sequence = (genV1Update now cn1 r1 st).sequence % 16384 := by
    rw [hst1, genV1_snd]
  have hseq : st1.sequence < 16384 := by
    rw [hseqv]; exact Nat.mod_lt _ (by omega)
  have h1tl : u1.timeLow = (_getTimeFieldValues now).low + (st1.tick : Int) := by
    rw [hu1, genV1_fst, htick]
    simp [genV1Update_timestamp]
  have h1ch : u1.clockSeqHiAndReserved = ((st1.sequence / 256 + 128 : Nat) : Int) := by
    rw [hu1, genV1_fst, hseqv]
  have h1cl : u1.clockSeqLow = ((st1.sequence % 256 : Nat) : Int) := by
    rw [hu1, genV1_fst, hseqv]
  by_cases hbr : cn2 = true ∧ st1.tick < 9984
  · -- tick-advance branch of the second call: timeLow strictly increases
    have hupd2 : genV1Update now cn2 r2 st1 = { st1 with tick := st1.tick + 1 + r2 } :=
      genV1Update_of_tick now cn2 r2 st1 hts.symm hbr.1 hbr.2
    have h2tl : u2.timeLow
        = (_getTimeFieldValues now).low + ((st1.tick + 1 + r2 : Nat) : Int) := by
      rw [hu2, genV1_fst, hupd2]
      simp [hts]
    have hne : u1.timeLow ≠ u2.timeLow := by
      rw [h1tl, h2tl]
      push_cast
      omega
    exact ⟨fun hEq => hne (congrArg (fun l => l.getD 0 0) hEq), Or.inl hne⟩
  · -- sequence branch of the second call: the 14-bit sequence moves
    have hupd2 : genV1Update now cn2 r2 st1 = { st1 with sequence := st1.sequence + 1 } :=
      genV1Update_of_seq now cn2 r2 st1 hts.symm hbr
    have h2ch : u2.clockSeqHiAndReserved
        = (((st1.sequence + 1) % 16384 / 256 + 128 : Nat) : Int) := by
      rw [hu2, genV1_fst, hupd2]
    have h2cl : u2.clockSeqLow
        = (((st1.sequence + 1) % 16384 % 256 : Nat) : Int) := by
      rw [hu2, genV1_fst, hupd2]
    have hkey : u1.clockSeqHiAndReserved ≠ u2.clockSeqHiAndReserved ∨
        u1.clockSeqLow ≠ u2.clockSeqLow := by
      by_contra hc
      push_neg at hc
      obtain ⟨hc1, hc2⟩ := hc
      rw [h1ch, h2ch] at hc1
      rw [h1cl, h2cl] at hc2
      have hc1' : st1.sequence / 256 + 128 = (st1.sequence + 1) % 16384 / 256 + 128 := by
        exact_mod_cast hc1
      have hc2' : st1.sequence % 256 = (st1.sequence + 1) % 16384 % 256 := by
        exact_mod_cast hc2
      omega
    refine ⟨fun hEq => ?_, Or.inr (by tauto)⟩
    rcases hkey with h | h
    · exact h (congrArg (fun l => l.getD 3 0) hEq)
    · exact h (congrArg (fun l => l.getD 4 0) hEq)

/-- C1 witness: the initial state, clock 0, both draws 0 and both coins
false — the two identifiers differ in their fields. -/
theorem c1_witness :
    (genV1 0 false 0 (UUIDState.init 0 0 0 0)).1.intFields
      ≠ (genV1 0 false 0 (genV1 0 false 0 (UUIDState.init 0 0 0 0)).2).1.intFields ∧
    ((genV1 0 false 0 (UUIDState.init 0 0 0 0)).1.timeLow
        ≠ (genV1 0 false 0 (genV1 0 false 0 (UUIDState.init 0 0 0 0)).2).1.timeLow ∨
      (genV1 0 false 0 (UUIDState.init 0 0 0 0)).1.clockSeqHiAndReserved
        ≠ (genV1 0 false 0
            (genV1 0 false 0 (UUIDState.init 0 0 0 0)).2).1.clockSeqHiAndReserved ∨
      (genV1 0 false 0 (UUIDState.init 0 0 0 0)).1.clockSeqLow
        ≠ (genV1 0 false 0 (genV1 0 false 0 (UUIDState.init 0 0 0 0)).2).1.clockSeqLow) :=
  c1_constant_clock_distinct (UUIDState.init 0 0 0 0) 0 false false 0 0
    (Reachable.init 0 0 0 0 (by omega) (by omega) (by omega) (by omega))
    (by omega) (by omega)

/-! ## Claim theorems: canonical v1 string format (C4) -/

theorem timeFields_low_bounds (t : Int) :
    0 ≤ (_getTimeFieldValues t).low ∧ (_getTimeFieldValues t).low < 4294967296 := by
  simp only [_getTimeFieldValues]
  exact ⟨Int.emod_nonneg _ (by norm_num), Int.emod_lt_of_pos _ (by norm_num)⟩

theorem timeFields_mid_bounds (t : Int) :
    0 ≤ (_getTimeFieldValues t).mid ∧ (_getTimeFieldValues t).mid < 65536 := by
  simp only [_getTimeFieldValues]
  exact ⟨Int.emod_nonneg _ (by norm_num), Int.emod_lt_of_pos _ (by norm_num)⟩

theorem genV1Update_tick_le (now : Int) (coin : Bool) (r4 : Nat) (st : UUIDState)
    (hr : r4 < 16) (hst : st.tick ≤ 9999) :
    (genV1Update now coin r4 st).tick ≤ 9999 := by
  by_cases h1 : now ≠ st.timestamp
  · rw [genV1Update_of_change now coin r4 st h1]
    show r4 ≤ 9999
    omega
  · push_neg at h1
    by_cases h2 : coin = true ∧ st.tick < 9984
    · rw [genV1Update_of_tick now coin r4 st h1 h2.1 h2.2]
      obtain ⟨-, h2t⟩ := h2
      show st.tick + 1 + r4 ≤ 9999
      omega
    · rw [genV1Update_of_seq now coin r4 st h1 h2]
      show st.tick ≤ 9999
      exact hst

theorem hexFields_expand (u : UUID) :
    u.hexFields = [alignChars 16 u.timeLow 8, alignChars 16 u.timeMid 4,
      alignChars 16 u.timeHiAndVersion 4, alignChars 16 u.clockSeqHiAndReserved 2,
      alignChars 16 u.clockSeqLow 2, alignChars 16 u.node 12] := by
  norm_num [UUID.hexFields, UUID.intFields, UUID.FIELD_SIZES]

theorem hexChars_expand (u : UUID) :
    u.hexChars = alignChars 16 u.timeLow 8 ++ '-' :: alignChars 16 u.timeMid 4
      ++ '-' :: alignChars 16 u.timeHiAndVersion 4
      ++ '-' :: (alignChars 16 u.clockSeqHiAndReserved 2 ++ alignChars 16 u.clockSeqLow 2)
      ++ '-' :: alignChars 16 u.node 12 := by
  simp only [UUID.hexChars, hexFields_expand, List.getD_cons_zero, List.getD_cons_succ]

/-- C4 counterexample: from the reachable state `c4State` (one call deep,
`timestamp = c4Clock`, `tick = 15`), a second call at the same clock that
advances the tick to 31 computes `timeLow = (2^32 - 16) + 31 = 2^32 + 15`:
the first hex group has 9 digits and the string is 37 characters, not the
canonical 36. -/
theorem c4_counterexample :
    Reachable c4State ∧
    (genV1 c4Clock true 15 c4State).1.timeLow = 4294967311 ∧
    ((genV1 c4Clock true 15 c4State).1.hexChars).length = 37 ∧
    ¬ CanonicalUuidChars ((genV1 c4Clock true 15 c4State).1.hexString.data) := by
  refine ⟨Reachable.step _ c4Clock false 15 (by omega)
      (Reachable.init 0 0 0 0 (by omega) (by omega) (by omega) (by omega)),
    by decide, by decide, fun hcanon => ?_⟩
  have h37 : ((genV1 c4Clock true 15 c4State).1.hexString.data).length = 37 := by
    decide
  obtain ⟨h36, -⟩ := hcanon
  omega

/-- C4 (amended): for every reachable state and clock value, the computed
`timeLow = low + tick` is below `2^32 + 10^4`, and whenever it fits in 32
bits (`timeLow < 2^32`, which a fresh-timestamp call always satisfies but a
same-millisecond tick advance can violate), the returned Identifier's
`hexString` matches the canonical format exactly: 8-4-4-4-12 lowercase hex
groups separated by hyphens, 36 characters. -/
theorem c4_canonical_format (st : UUIDState) (now : Int) (coin : Bool)
    (r4 : Nat) (h : Reachable st) (hr : r4 < 16) :
    (genV1 now coin r4 st).1.timeLow < 4294977296 ∧
    ((genV1 now coin r4 st).1.timeLow < 4294967296 →
      CanonicalUuidChars ((genV1 now coin r4 st).1.hexString.data)) := by
  obtain ⟨hseqI, hnodeI, htickI⟩ := reachable_invariant st h
  set u := (genV1 now coin r4 st).1 with hu
  have htl : u.timeLow
      = (_getTimeFieldValues (genV1Update now coin r4 st).timestamp).low
        + ((genV1Update now coin r4 st).tick : Int) := by
    rw [hu, genV1_fst]
  have hmid : u.timeMid
      = (_getTimeFieldValues (genV1Update now coin r4 st).timestamp).mid := by
    rw [hu, genV1_fst]
  have hthav : u.timeHiAndVersion
      = (_getTimeFieldValues (genV1Update now coin r4 st).timestamp).hi % 4096
        + 4096 := by
    rw [hu, genV1_fst]
  have hch : u.clockSeqHiAndReserved
      = (((genV1Update now coin r4 st).sequence % 16384 / 256 + 128 : Nat) : Int) := by
    rw [hu, genV1_fst]
  have hcl : u.clockSeqLow
      = (((genV1Update now coin r4 st).sequence % 16384 % 256 : Nat) : Int) := by
    rw [hu, genV1_fst]
  have hnd : u.node = ((genV1Update now coin r4 st).node : Int) := by
    rw [hu, genV1_fst]
  obtain ⟨hlow0, hlow1⟩ :=
    timeFields_low_bounds (genV1Update now coin r4 st).timestamp
  obtain ⟨hmid0, hmid1⟩ :=
    timeFields_mid_bounds (genV1Update now coin r4 st).timestamp
  have htick2 : (genV1Update now coin r4 st).tick ≤ 9999 :=
    genV1Update_tick_le now coin r4 st hr htickI
  have htickc : ((genV1Update now coin r4 st).tick : Int) ≤ 9999 := by
    exact_mod_cast htick2
  have htick0 : (0 : Int) ≤ ((genV1Update now coin r4 st).tick : Int) := by
    positivity
  have hub : u.timeLow < 4294977296 := by rw [htl]; omega
  refine ⟨hub, fun hfit => ?_⟩
  have htl0 : 0 ≤ u.timeLow := by rw [htl]; omega
  have hthav0 : 0 ≤ u.timeHiAndVersion := by
    rw [hthav]
    have := Int.emod_nonneg
      (_getTimeFieldValues (genV1Update now coin r4 st).timestamp).hi
      (show (4096 : Int) ≠ 0 by norm_num)
    omega
  have hthav1 : u.timeHiAndVersion < 65536 := by
    rw [hthav]
    have := Int.emod_lt_of_pos
      (_getTimeFieldValues (genV1Update now coin r4 st).timestamp).hi
      (show (0 : Int) < 4096 by norm_num)
    omega
  have hmid0' : 0 ≤ u.timeMid := by rw [hmid]; exact hmid0
  have hmid1' : u.timeMid < 65536 := by rw [hmid]; exact hmid1
  have hch0 : 0 ≤ u.clockSeqHiAndReserved := by rw [hch]; positivity
  have hch1 : u.clockSeqHiAndReserved < 256 := by
    rw [hch]
    exact_mod_cast
      (show (genV1Update now coin r4 st).sequence % 16384 / 256 + 128 < 256 by omega)
  have hcl0 : 0 ≤ u.clockSeqLow := by rw [hcl]; positivity
  have hcl1 : u.clockSeqLow < 256 := by
    rw [hcl]
    exact_mod_cast
      (show (genV1Update now coin r4 st).sequence % 16384 % 256 < 256 by omega)
  have hnd0 : 0 ≤ u.node := by rw [hnd]; positivity
  have hnd1 : u.node < 281474976710656 := by
    rw [hnd, genV1Update_node]
    exact_mod_cast hnodeI
  have hl1 : (alignChars 16 u.timeLow 8).length = 8 :=
    alignChars_length 16 (by norm_num) _ 8 htl0 (by norm_num) (by norm_num; omega)
  have hl2 : (alignChars 16 u.timeMid 4).length = 4 :=
    alignChars_length 16 (by norm_num) _ 4 hmid0' (by norm_num) (by norm_num; omega)
  have hl3 : (alignChars 16 u.timeHiAndVersion 4).length = 4 :=
    alignChars_length 16 (by norm_num) _ 4 hthav0 (by norm_num) (by norm_num; omega)
  have hl4a : (alignChars 16 u.clockSeqHiAndReserved 2).length = 2 :=
    alignChars_length 16 (by norm_num) _ 2 hch0 (by norm_num) (by norm_num; omega)
  have hl4b : (alignChars 16 u.clockSeqLow 2).length = 2 :=
    alignChars_length 16 (by norm_num) _ 2 hcl0 (by norm_num) (by norm_num; omega)
  have hl6 : (alignChars 16 u.node 12).length = 12 :=
    alignChars_length 16 (by norm_num) _ 12 hnd0 (by norm_num) (by norm_num; omega)
  have hm1 := alignChars_lowerHex 16 (by norm_num) (by norm_num) u.timeLow 8 htl0
  have hm2 := alignChars_lowerHex 16 (by norm_num) (by norm_num) u.timeMid 4 hmid0'
  have hm3 := alignChars_lowerHex 16 (by norm_num) (by norm_num)
    u.timeHiAndVersion 4 hthav0
  have hm4a := alignChars_lowerHex 16 (by norm_num) (by norm_num)
    u.clockSeqHiAndReserved 2 hch0
  have hm4b := alignChars_lowerHex 16 (by norm_num) (by norm_num)
    u.clockSeqLow 2 hcl0
  have hm6 := alignChars_lowerHex 16 (by norm_num) (by norm_num) u.node 12 hnd0
  rw [show u.hexString.data = u.hexChars from rfl, hexChars_expand u]
  refine ⟨?_, alignChars 16 u.timeLow 8, alignChars 16 u.timeMid 4,
    alignChars 16 u.timeHiAndVersion 4,
    alignChars 16 u.clockSeqHiAndReserved 2 ++ alignChars 16 u.clockSeqLow 2,
    alignChars 16 u.node 12, rfl, hl1, hl2, hl3, ?_, hl6, hm1, hm2, hm3, ?_, hm6⟩
  · simp only [List.length_append, List.length_cons, hl1, hl2, hl3, hl4a, hl4b, hl6]
  · rw [List.length_append, hl4a, hl4b]
  · intro c hc
    rcases List.mem_append.mp hc with hcc | hcc
    · exact hm4a c hcc
    · exact hm4b c hcc

/-- C4 witness: the initial state, clock 0, draw 0 — here `timeLow` fits
and the canonical-format implication is available. -/
theorem c4_witness :
    (genV1 0 false 0 (UUIDState.init 0 0 0 0)).1.timeLow < 4294977296 ∧
    ((genV1 0 false 0 (UUIDState.init 0 0 0 0)).1.timeLow < 4294967296 →
      CanonicalUuidChars
        ((genV1 0 false 0 (UUIDState.init 0 0 0 0)).1.hexString.data)) :=
  c4_canonical_format (UUIDState.init 0 0 0 0) 0 false 0
    (Reachable.init 0 0 0 0 (by omega) (by omega) (by omega) (by omega))
    (by omega)

/-! ## Parser lemmas -/

theorem takeHex_append (n : Nat) (g r : List Char) (hlen : g.length = n)
    (hg : ∀ c ∈ g, isHexDigit c = true) :
    takeHex n (g ++ r) = some (g, r) := by
  induction g generalizing n with
  | nil =>
    subst hlen
    simp [takeHex]
  | cons c t ih =>
    subst hlen
    simp only [List.length_cons, List.cons_append, takeHex]
    rw [if_pos (hg c (List.mem_cons_self c t))]
    have hrec := ih t.length rfl (fun x hx => hg x (List.mem_cons_of_mem c hx))
    simp [List.append_eq, hrec]

theorem takeHex_sound (n : Nat) : ∀ (l g r : List Char),
    takeHex n l = some (g, r) →
    l = g ++ r ∧ g.length = n ∧ ∀ c ∈ g, isHexDigit c = true := by
  induction n with
  | zero =>
    intro l g r h
    simp only [takeHex, Option.some.injEq, Prod.mk.injEq] at h
    obtain ⟨hg, hr⟩ := h
    subst hg
    subst hr
    simp
  | succ n ih =>
    intro l g r h
    cases l with
    | nil => simp [takeHex] at h
    | cons c t =>
      simp only [takeHex] at h
      by_cases hc : isHexDigit c = true
      · rw [if_pos hc] at h
        cases hh : takeHex n t with
        | none => rw [hh] at h; simp at h
        | some p =>
          rw [hh] at h
          obtain ⟨g', r'⟩ := p
          obtain ⟨ht1, ht2, ht3⟩ := ih t g' r' hh
          simp at h
          obtain ⟨hg, hr⟩ := h
          subst hg
          subst hr
          refine ⟨by simp [ht1], by simp [ht2], ?_⟩
          intro x hx
          rcases List.mem_cons.mp hx with hx | hx
          · subst hx; exact hc
          · exact ht3 x hx
      · rw [if_neg hc] at h
        simp at h

theorem expectDash_cons (l : List Char) : expectDash ('-' :: l) = some l := by
  simp [expectDash]

theorem expectDash_sound (l r : List Char) (h : expectDash l = some r) :
    l = '-' :: r := by
  cases l with
  | nil => simp [expectDash] at h
  | cons c t =>
    simp only [expectDash] at h
    rcases eq_or_ne c '-' with hc | hc
    · subst hc
      rw [if_pos rfl] at h
      injection h with h
      subst h
      rfl
    · rw [if_neg hc] at h
      exact absurd h (by simp)

theorem matchCI_urnPat (rest : List Char) :
    matchCI urnPat (urnPat ++ rest) = some rest := rfl

theorem matchCI_sound (p : List Char) : ∀ l r, matchCI p l = some r →
    ∃ pre, l = pre ++ r ∧ pre.length = p.length ∧
      pre.map (fun c => lowerN c.toNat) = p.map Char.toNat := by
  induction p with
  | nil =>
    intro l r h
    simp only [matchCI, Option.some.injEq] at h
    subst h
    exact ⟨[], by simp⟩
  | cons p ps ih =>
    intro l r h
    cases l with
    | nil => simp [matchCI] at h
    | cons c t =>
      simp only [matchCI] at h
      by_cases hc : lowerN c.toNat = p.toNat
      · rw [if_pos hc] at h
        obtain ⟨pre, h1, h2, h3⟩ := ih t r h
        exact ⟨c :: pre, by simp [h1], by simp [h2], by simp [h3, hc]⟩
      · rw [if_neg hc] at h
        simp at h

theorem matchCI_urn_none (c : Char) (l : List Char)
    (hc : lowerN c.toNat ≠ 117) : matchCI urnPat (c :: l) = none := by
  have h117 : Char.toNat 'u' = 117 := rfl
  simp only [urnPat, matchCI, h117]
  rw [if_neg hc]

theorem hexDigit_facts (c : Char) (hc : isHexDigit c = true) :
    lowerN c.toNat ≠ 117 ∧ c ≠ '{' ∧ isSpace c = false := by
  simp only [isHexDigit, Bool.or_eq_true, Bool.and_eq_true,
    decide_eq_true_eq] at hc
  refine ⟨?_, ?_, ?_⟩
  · simp only [lowerN]
    split_ifs <;> omega
  · intro h
    subst h
    have : Char.toNat '{' = 123 := rfl
    omega
  · simp only [isSpace, Bool.or_eq_false_iff, decide_eq_false_iff_not]
    omega

theorem parseGroups_append (g1 g2 g3 g4 g5 g6 rest : List Char)
    (h1 : g1.length = 8) (h2 : g2.length = 4) (h3 : g3.length = 4)
    (h4 : g4.length = 2) (h5 : g5.length = 2) (h6 : g6.length = 12)
    (x1 : ∀ c ∈ g1, isHexDigit c = true) (x2 : ∀ c ∈ g2, isHexDigit c = true)
    (x3 : ∀ c ∈ g3, isHexDigit c = true) (x4 : ∀ c ∈ g4, isHexDigit c = true)
    (x5 : ∀ c ∈ g5, isHexDigit c = true) (x6 : ∀ c ∈ g6, isHexDigit c = true) :
    parseGroups (g1 ++ '-' :: g2 ++ '-' :: g3 ++ '-' :: (g4 ++ g5)
        ++ '-' :: (g6 ++ rest))
      = some (⟨g1, g2, g3, g4, g5, g6⟩, rest) := by
  have t1 := takeHex_append 8 g1
    ('-' :: g2 ++ '-' :: g3 ++ '-' :: (g4 ++ g5) ++ '-' :: (g6 ++ rest)) h1 x1
  have t2 := takeHex_append 4 g2
    ('-' :: g3 ++ '-' :: (g4 ++ g5) ++ '-' :: (g6 ++ rest)) h2 x2
  have t3 := takeHex_append 4 g3
    ('-' :: (g4 ++ g5) ++ '-' :: (g6 ++ rest)) h3 x3
  have t4 := takeHex_append 2 g4 (g5 ++ '-' :: (g6 ++ rest)) h4 x4
  have t5 := takeHex_append 2 g5 ('-' :: (g6 ++ rest)) h5 x5
  have t6 := takeHex_append 12 g6 rest h6 x6
  simp only [List.cons_append, List.append_assoc] at t1 t2 t3 t4 t5
  simp [parseGroups, List.append_assoc, t1, t2, t3, t4, t5, t6, expectDash_cons]

theorem parseGroups_sound (l : List Char) (gs : Groups) (rest : List Char)
    (h : parseGroups l = some (gs, rest)) :
    l = gs.g1 ++ '-' :: gs.g2 ++ '-' :: gs.g3 ++ '-' :: (gs.g4 ++ gs.g5)
        ++ '-' :: (gs.g6 ++ rest) ∧
    gs.g1.length = 8 ∧ gs.g2.length = 4 ∧ gs.g3.length = 4 ∧
    gs.g4.length = 2 ∧ gs.g5.length = 2 ∧ gs.g6.length = 12 ∧
    (∀ c ∈ gs.g1, isHexDigit c = true) ∧ (∀ c ∈ gs.g2, isHexDigit c = true) ∧
    (∀ c ∈ gs.g3, isHexDigit c = true) ∧ (∀ c ∈ gs.g4, isHexDigit c = true) ∧
    (∀ c ∈ gs.g5, isHexDigit c = true) ∧ (∀ c ∈ gs.g6, isHexDigit c = true) := by
  unfold parseGroups at h
  cases e1 : takeHex 8 l with
  | none => rw [e1] at h; simp at h
  | some p1 =>
    rw [e1] at h
    obtain ⟨g1, a1⟩ := p1
    obtain ⟨q1, n1, y1⟩ := takeHex_sound 8 l g1 a1 e1
    simp only [Option.bind_eq_bind, Option.some_bind] at h
    cases e2 : expectDash a1 with
    | none => rw [e2] at h; simp at h
    | some b1 =>
      rw [e2] at h
      have q2 := expectDash_sound a1 b1 e2
      simp only [Option.bind_eq_bind, Option.some_bind] at h
      cases e3 : takeHex 4 b1 with
      | none => rw [e3] at h; simp at h
      | some p2 =>
        rw [e3] at h
        obtain ⟨g2, a2⟩ := p2
        obtain ⟨q3, n2, y2⟩ := takeHex_sound 4 b1 g2 a2 e3
        simp only [Option.bind_eq_bind, Option.some_bind] at h
        cases e4 : expectDash a2 with
        | none => rw [e4] at h; simp at h
        | some b2 =>
          rw [e4] at h
          have q4 := expectDash_sound a2 b2 e4
          simp only [Option.bind_eq_bind, Option.some_bind] at h
          cases e5 : takeHex 4 b2 with
          | none => rw [e5] at h; simp at h
          | some p3 =>
            rw [e5] at h
            obtain ⟨g3, a3⟩ := p3
            obtain ⟨q5, n3, y3⟩ := takeHex_sound 4 b2 g3 a3 e5
            simp only [Option.bind_eq_bind, Option.some_bind] at h
            cases e6 : expectDash a3 with
            | none => rw [e6] at h; simp at h
            | some b3 =>
              rw [e6] at h
              have q6 := expectDash_sound a3 b3 e6
              simp only [Option.bind_eq_bind, Option.some_bind] at h
              cases e7 : takeHex 2 b3 with
              | none => rw [e7] at h; simp at h
              | some p4 =>
                rw [e7] at h
                obtain ⟨g4, a4⟩ := p4
                obtain ⟨q7, n4, y4⟩ := takeHex_sound 2 b3 g4 a4 e7
                simp only [Option.bind_eq_bind, Option.some_bind] at h
                cases e8 : takeHex 2 a4 with
                | none => rw [e8] at h; simp at h
                | some p5 =>
                  rw [e8] at h
                  obtain ⟨g5, a5⟩ := p5
                  obtain ⟨q8, n5, y5⟩ := takeHex_sound 2 a4 g5 a5 e8
                  simp only [Option.bind_eq_bind, Option.some_bind] at h
                  cases e9 : expectDash a5 with
                  | none => rw [e9] at h; simp at h
                  | some b5 =>
                    rw [e9] at h
                    have q9 := expectDash_sound a5 b5 e9
                    simp only [Option.bind_eq_bind, Option.some_bind] at h
                    cases e10 : takeHex 12 b5 with
                    | none => rw [e10] at h; simp at h
                    | some p6 =>
                      rw [e10] at h
                      obtain ⟨g6, a6⟩ := p6
                      obtain ⟨q10, n6, y6⟩ := takeHex_sound 12 b5 g6 a6 e10
                      simp only [Option.bind_eq_bind, Option.some_bind, pure, Option.some.injEq,
                        Prod.mk.injEq] at h
                      obtain ⟨hgs, hrest⟩ := h
                      subst hgs
                      subst hrest
                      refine ⟨?_, n1, n2, n3, n4, n5, n6, y1, y2, y3, y4, y5, y6⟩
                      subst q1
                      subst q2
                      subst q3
                      subst q4
                      subst q5
                      subst q6
                      subst q7
                      subst q8
                      subst q9
                      subst q10
                      simp [List.cons_append, List.append_assoc]

theorem parseChars_bare (g1 g2 g3 g4 g5 g6 : List Char)
    (h1 : g1.length = 8) (h2 : g2.length = 4) (h3 : g3.length = 4)
    (h4 : g4.length = 2) (h5 : g5.length = 2) (h6 : g6.length = 12)
    (x1 : ∀ c ∈ g1, isHexDigit c = true) (x2 : ∀ c ∈ g2, isHexDigit c = true)
    (x3 : ∀ c ∈ g3, isHexDigit c = true) (x4 : ∀ c ∈ g4, isHexDigit c = true)
    (x5 : ∀ c ∈ g5, isHexDigit c = true) (x6 : ∀ c ∈ g6, isHexDigit c = true) :
    parseChars (g1 ++ '-' :: g2 ++ '-' :: g3 ++ '-' :: (g4 ++ g5) ++ '-' :: g6)
      = some ⟨(hexVal g1 : Int), (hexVal g2 : Int), (hexVal g3 : Int),
          (hexVal g4 : Int), (hexVal g5 : Int), (hexVal g6 : Int)⟩ := by
  obtain ⟨c, t, rfl⟩ : ∃ c t, g1 = c :: t := by
    cases g1 with
    | nil => simp at h1
    | cons c t => exact ⟨c, t, rfl⟩
  have hcH : isHexDigit c = true := x1 c (List.mem_cons_self c t)
  obtain ⟨hu117, hbrace, hsp⟩ := hexDigit_facts c hcH
  have hpg := parseGroups_append (c :: t) g2 g3 g4 g5 g6 [] h1 h2 h3 h4 h5 h6
    x1 x2 x3 x4 x5 x6
  rw [List.append_nil] at hpg
  simp only [List.cons_append, List.append_assoc] at hpg ⊢
  simp [parseChars, List.dropWhile_cons, hsp, matchCI_urn_none, hu117, hbrace,
    hpg]

theorem parseChars_braced (g1 g2 g3 g4 g5 g6 : List Char)
    (h1 : g1.length = 8) (h2 : g2.length = 4) (h3 : g3.length = 4)
    (h4 : g4.length = 2) (h5 : g5.length = 2) (h6 : g6.length = 12)
    (x1 : ∀ c ∈ g1, isHexDigit c = true) (x2 : ∀ c ∈ g2, isHexDigit c = true)
    (x3 : ∀ c ∈ g3, isHexDigit c = true) (x4 : ∀ c ∈ g4, isHexDigit c = true)
    (x5 : ∀ c ∈ g5, isHexDigit c = true) (x6 : ∀ c ∈ g6, isHexDigit c = true) :
    parseChars ('{' :: (g1 ++ '-' :: g2 ++ '-' :: g3 ++ '-' :: (g4 ++ g5)
        ++ '-' :: g6) ++ ['}'])
      = some ⟨(hexVal g1 : Int), (hexVal g2 : Int), (hexVal g3 : Int),
          (hexVal g4 : Int), (hexVal g5 : Int), (hexVal g6 : Int)⟩ := by
  have hsp : isSpace '{' = false := by decide
  have hmci : ∀ l, matchCI urnPat ('{' :: l) = none := fun l =>
    matchCI_urn_none '{' l (by decide)
  have hpg := parseGroups_append g1 g2 g3 g4 g5 g6 ['}'] h1 h2 h3 h4 h5 h6
    x1 x2 x3 x4 x5 x6
  simp only [List.cons_append, List.append_assoc] at hpg ⊢
  simp [parseChars, List.dropWhile_cons, hsp, hmci, hpg]

theorem parseChars_urn (g1 g2 g3 g4 g5 g6 : List Char)
    (h1 : g1.length = 8) (h2 : g2.length = 4) (h3 : g3.length = 4)
    (h4 : g4.length = 2) (h5 : g5.length = 2) (h6 : g6.length = 12)
    (x1 : ∀ c ∈ g1, isHexDigit c = true) (x2 : ∀ c ∈ g2, isHexDigit c = true)
    (x3 : ∀ c ∈ g3, isHexDigit c = true) (x4 : ∀ c ∈ g4, isHexDigit c = true)
    (x5 : ∀ c ∈ g5, isHexDigit c = true) (x6 : ∀ c ∈ g6, isHexDigit c = true) :
    parseChars (urnPat ++ (g1 ++ '-' :: g2 ++ '-' :: g3 ++ '-' :: (g4 ++ g5)
        ++ '-' :: g6))
      = some ⟨(hexVal g1 : Int), (hexVal g2 : Int), (hexVal g3 : Int),
          (hexVal g4 : Int), (hexVal g5 : Int), (hexVal g6 : Int)⟩ := by
  have hspu : isSpace 'u' = false := by decide
  have hm := matchCI_urnPat (g1 ++ '-' :: g2 ++ '-' :: g3 ++ '-' :: (g4 ++ g5)
    ++ '-' :: g6)
  have hpg := parseGroups_append g1 g2 g3 g4 g5 g6 [] h1 h2 h3 h4 h5 h6
    x1 x2 x3 x4 x5 x6
  rw [List.append_nil] at hpg
  simp only [urnPat, List.cons_append, List.nil_append, List.append_assoc] at hm hpg ⊢
  simp [parseChars, urnPat, List.dropWhile_cons, hspu, hm, hpg]

theorem parseChars_brace_open (g1 g2 g3 g4 g5 g6 : List Char)
    (h1 : g1.length = 8) (h2 : g2.length = 4) (h3 : g3.length = 4)
    (h4 : g4.length = 2) (h5 : g5.length = 2) (h6 : g6.length = 12)
    (x1 : ∀ c ∈ g1, isHexDigit c = true) (x2 : ∀ c ∈ g2, isHexDigit c = true)
    (x3 : ∀ c ∈ g3, isHexDigit c = true) (x4 : ∀ c ∈ g4, isHexDigit c = true)
    (x5 : ∀ c ∈ g5, isHexDigit c = true) (x6 : ∀ c ∈ g6, isHexDigit c = true) :
    parseChars ('{' :: (g1 ++ '-' :: g2 ++ '-' :: g3 ++ '-' :: (g4 ++ g5)
        ++ '-' :: g6))
      = none := by
  have hsp : isSpace '{' = false := by decide
  have hmci : ∀ l, matchCI urnPat ('{' :: l) = none := fun l =>
    matchCI_urn_none '{' l (by decide)
  have hpg := parseGroups_append g1 g2 g3 g4 g5 g6 [] h1 h2 h3 h4 h5 h6
    x1 x2 x3 x4 x5 x6
  rw [List.append_nil] at hpg
  simp only [List.cons_append, List.append_assoc] at hpg ⊢
  simp [parseChars, List.dropWhile_cons, hsp, hmci, hpg]

theorem parseChars_dangling (g1 g2 g3 g4 g5 g6 : List Char)
    (h1 : g1.length = 8) (h2 : g2.length = 4) (h3 : g3.length = 4)
    (h4 : g4.length = 2) (h5 : g5.length = 2) (h6 : g6.length = 12)
    (x1 : ∀ c ∈ g1, isHexDigit c = true) (x2 : ∀ c ∈ g2, isHexDigit c = true)
    (x3 : ∀ c ∈ g3, isHexDigit c = true) (x4 : ∀ c ∈ g4, isHexDigit c = true)
    (x5 : ∀ c ∈ g5, isHexDigit c = true) (x6 : ∀ c ∈ g6, isHexDigit c = true) :
    parseChars ((g1 ++ '-' :: g2 ++ '-' :: g3 ++ '-' :: (g4 ++ g5)
        ++ '-' :: g6) ++ ['}'])
      = none := by
  obtain ⟨c, t, rfl⟩ : ∃ c t, g1 = c :: t := by
    cases g1 with
    | nil => simp at h1
    | cons c t => exact ⟨c, t, rfl⟩
  have hcH : isHexDigit c = true := x1 c (List.mem_cons_self c t)
  obtain ⟨hu117, hbrace, hsp⟩ := hexDigit_facts c hcH
  have hpg := parseGroups_append (c :: t) g2 g3 g4 g5 g6 ['}'] h1 h2 h3 h4 h5 h6
    x1 x2 x3 x4 x5 x6
  simp only [List.cons_append, List.append_assoc] at hpg ⊢
  simp [parseChars, List.dropWhile_cons, hsp, matchCI_urn_none, hu117, hbrace,
    hpg]

theorem parseChars_urn_brace (g1 g2 g3 g4 g5 g6 : List Char)
    (h1 : g1.length = 8) (h2 : g2.length = 4) (h3 : g3.length = 4)
    (h4 : g4.length = 2) (h5 : g5.length = 2) (h6 : g6.length = 12)
    (x1 : ∀ c ∈ g1, isHexDigit c = true) (x2 : ∀ c ∈ g2, isHexDigit c = true)
    (x3 : ∀ c ∈ g3, isHexDigit c = true) (x4 : ∀ c ∈ g4, isHexDigit c = true)
    (x5 : ∀ c ∈ g5, isHexDigit c = true) (x6 : ∀ c ∈ g6, isHexDigit c = true) :
    parseChars (urnPat ++ (g1 ++ '-' :: g2 ++ '-' :: g3 ++ '-' :: (g4 ++ g5)
        ++ '-' :: g6) ++ ['}'])
      = none := by
  have hspu : isSpace 'u' = false := by decide
  have hm := matchCI_urnPat ((g1 ++ '-' :: g2 ++ '-' :: g3 ++ '-' :: (g4 ++ g5)
    ++ '-' :: g6) ++ ['}'])
  have hpg := parseGroups_append g1 g2 g3 g4 g5 g6 ['}'] h1 h2 h3 h4 h5 h6
    x1 x2 x3 x4 x5 x6
  simp only [urnPat, List.cons_append, List.nil_append, List.append_assoc] at hm hpg ⊢
  simp [parseChars, urnPat, List.dropWhile_cons, hspu, hm, hpg]

theorem head?_shape (l : List Char) (c : Char) (h : l.head? = some c) :
    l = c :: l.tail := by
  cases l with
  | nil => simp at h
  | cons a t =>
    simp only [List.head?_cons, Option.some.injEq] at h
    subst h
    rfl

theorem parseChars_sound (s : List Char) (u : UUID)
    (h : parseChars s = some u) : ConsistentShape s := by
  simp only [parseChars] at h
  set s1 := s.dropWhile isSpace with hs1
  have hsplit : s.takeWhile isSpace ++ s1 = s :=
    List.takeWhile_append_dropWhile isSpace s
  have hw1 : ∀ c ∈ s.takeWhile isSpace, isSpace c = true := fun c hc =>
    List.mem_takeWhile_imp hc
  cases hm : matchCI urnPat s1 with
  | some r =>
    rw [hm] at h
    obtain ⟨preC, hpre1, hpre2, hpre3⟩ := matchCI_sound urnPat s1 r hm
    cases hg : parseGroups r with
    | none => simp [hg] at h
    | some p =>
      obtain ⟨gs, a6⟩ := p
      simp only [hg] at h
      obtain ⟨hcore, n1, n2, n3, n4, n5, n6, y1, y2, y3, y4, y5, y6⟩ :=
        parseGroups_sound r gs a6 hg
      by_cases hbr : a6.head? = some '}'
      · simp [hbr] at h
      · simp only [if_neg hbr] at h
        by_cases hall : a6.all isSpace
        · refine ⟨s.takeWhile isSpace, preC,
            gs.g1 ++ '-' :: gs.g2 ++ '-' :: gs.g3 ++ '-' :: (gs.g4 ++ gs.g5)
              ++ '-' :: gs.g6, [], a6, ?_, hw1, ?_, ?_, ?_⟩
          · conv_lhs => rw [← hsplit]
            rw [hpre1, hcore]
            simp [List.cons_append, List.append_assoc]
          · exact fun c hc => (List.all_eq_true.mp hall) c hc
          · exact ⟨gs.g1, gs.g2, gs.g3, gs.g4, gs.g5, gs.g6, rfl,
              n1, n2, n3, n4, n5, n6, y1, y2, y3, y4, y5, y6⟩
          · exact Or.inr (Or.inr ⟨hpre3, rfl⟩)
        · simp [hall] at h
  | none =>
    rw [hm] at h
    by_cases hh : s1.head? = some '{'
    · simp only [if_pos hh] at h
      have hs1c : s1 = '{' :: s1.tail := head?_shape s1 '{' hh
      cases hg : parseGroups s1.tail with
      | none => simp [hg] at h
      | some p =>
        obtain ⟨gs, a6⟩ := p
        simp only [hg] at h
        obtain ⟨hcore, n1, n2, n3, n4, n5, n6, y1, y2, y3, y4, y5, y6⟩ :=
          parseGroups_sound s1.tail gs a6 hg
        by_cases hbr : a6.head? = some '}'
        · simp only [if_pos hbr] at h
          have ha6c : a6 = '}' :: a6.tail := head?_shape a6 '}' hbr
          by_cases hall : a6.tail.all isSpace
          · refine ⟨s.takeWhile isSpace, ['{'],
              gs.g1 ++ '-' :: gs.g2 ++ '-' :: gs.g3 ++ '-' :: (gs.g4 ++ gs.g5)
                ++ '-' :: gs.g6, ['}'], a6.tail, ?_, hw1, ?_, ?_, ?_⟩
            · conv_lhs => rw [← hsplit]
              rw [hs1c, hcore, ha6c]
              simp [List.cons_append, List.append_assoc]
            · exact fun c hc => (List.all_eq_true.mp hall) c hc
            · exact ⟨gs.g1, gs.g2, gs.g3, gs.g4, gs.g5, gs.g6, rfl,
                n1, n2, n3, n4, n5, n6, y1, y2, y3, y4, y5, y6⟩
            · exact Or.inr (Or.inl ⟨rfl, rfl⟩)
          · simp [hall] at h
        · simp [hbr] at h
    · simp only [if_neg hh] at h
      cases hg : parseGroups s1 with
      | none => simp [hg] at h
      | some p =>
        obtain ⟨gs, a6⟩ := p
        simp only [hg] at h
        obtain ⟨hcore, n1, n2, n3, n4, n5, n6, y1, y2, y3, y4, y5, y6⟩ :=
          parseGroups_sound s1 gs a6 hg
        by_cases hbr : a6.head? = some '}'
        · simp [hbr] at h
        · simp only [if_neg hbr] at h
          by_cases hall : a6.all isSpace
          · refine ⟨s.takeWhile isSpace, [],
              gs.g1 ++ '-' :: gs.g2 ++ '-' :: gs.g3 ++ '-' :: (gs.g4 ++ gs.g5)
                ++ '-' :: gs.g6, [], a6, ?_, hw1, ?_, ?_, ?_⟩
            · conv_lhs => rw [← hsplit]
              rw [hcore]
              simp [List.cons_append, List.append_assoc]
            · exact fun c hc => (List.all_eq_true.mp hall) c hc
            · exact ⟨gs.g1, gs.g2, gs.g3, gs.g4, gs.g5, gs.g6, rfl,
                n1, n2, n3, n4, n5, n6, y1, y2, y3, y4, y5, y6⟩
            · exact Or.inl ⟨rfl, rfl⟩
          · simp [hall] at h

/-! ## Claim theorems: parse round-trip (C2) and prefix/suffix pairing (C6) -/

/-- C2: for every 6-tuple of unsigned field values within the declared bit
widths (32, 16, 16, 8, 8, 48), parsing the constructed Identifier's
`hexString` succeeds and returns an Identifier with exactly the original
six integer fields. -/
theorem c2_roundtrip (a b c d e f : Nat) (ha : a < 4294967296)
    (hb : b < 65536) (hc : c < 65536) (hd : d < 256) (he : e < 256)
    (hf : f < 281474976710656) :
    parse (UUID.hexString ⟨(a : Int), (b : Int), (c : Int), (d : Int),
        (e : Int), (f : Int)⟩)
      = some ⟨(a : Int), (b : Int), (c : Int), (d : Int), (e : Int),
          (f : Int)⟩ := by
  set u : UUID := ⟨(a : Int), (b : Int), (c : Int), (d : Int), (e : Int),
    (f : Int)⟩ with hu
  show parseChars (UUID.hexString u).data = some u
  rw [show (UUID.hexString u).data = u.hexChars from rfl, hexChars_expand u]
  have hta : u.timeLow = (a : Int) := by rw [hu]
  have htb : u.timeMid = (b : Int) := by rw [hu]
  have htc : u.timeHiAndVersion = (c : Int) := by rw [hu]
  have htd : u.clockSeqHiAndReserved = (d : Int) := by rw [hu]
  have hte : u.clockSeqLow = (e : Int) := by rw [hu]
  have htf : u.node = (f : Int) := by rw [hu]
  have pa0 : 0 ≤ u.timeLow := by rw [hta]; positivity
  have pb0 : 0 ≤ u.timeMid := by rw [htb]; positivity
  have pc0 : 0 ≤ u.timeHiAndVersion := by rw [htc]; positivity
  have pd0 : 0 ≤ u.clockSeqHiAndReserved := by rw [htd]; positivity
  have pe0 : 0 ≤ u.clockSeqLow := by rw [hte]; positivity
  have pf0 : 0 ≤ u.node := by rw [htf]; positivity
  have paU : u.timeLow < ((16 : Nat) : Int) ^ 8 := by
    rw [hta]
    exact_mod_cast (show a < 16 ^ 8 by
      have : (16 : Nat) ^ 8 = 4294967296 := by norm_num
      omega)
  have pbU : u.timeMid < ((16 : Nat) : Int) ^ 4 := by
    rw [htb]
    exact_mod_cast (show b < 16 ^ 4 by
      have : (16 : Nat) ^ 4 = 65536 := by norm_num
      omega)
  have pcU : u.timeHiAndVersion < ((16 : Nat) : Int) ^ 4 := by
    rw [htc]
    exact_mod_cast (show c < 16 ^ 4 by
      have : (16 : Nat) ^ 4 = 65536 := by norm_num
      omega)
  have pdU : u.clockSeqHiAndReserved < ((16 : Nat) : Int) ^ 2 := by
    rw [htd]
    exact_mod_cast (show d < 16 ^ 2 by
      have : (16 : Nat) ^ 2 = 256 := by norm_num
      omega)
  have peU : u.clockSeqLow < ((16 : Nat) : Int) ^ 2 := by
    rw [hte]
    exact_mod_cast (show e < 16 ^ 2 by
      have : (16 : Nat) ^ 2 = 256 := by norm_num
      omega)
  have pfU : u.node < ((16 : Nat) : Int) ^ 12 := by
    rw [htf]
    exact_mod_cast (show f < 16 ^ 12 by
      have : (16 : Nat) ^ 12 = 281474976710656 := by norm_num
      omega)
  have L1 := alignChars_length 16 (by norm_num) u.timeLow 8 pa0 (by norm_num) paU
  have L2 := alignChars_length 16 (by norm_num) u.timeMid 4 pb0 (by norm_num) pbU
  have L3 := alignChars_length 16 (by norm_num) u.timeHiAndVersion 4 pc0
    (by norm_num) pcU
  have L4 := alignChars_length 16 (by norm_num) u.clockSeqHiAndReserved 2 pd0
    (by norm_num) pdU
  have L5 := alignChars_length 16 (by norm_num) u.clockSeqLow 2 pe0
    (by norm_num) peU
  have L6 := alignChars_length 16 (by norm_num) u.node 12 pf0 (by norm_num) pfU
  have X1 : ∀ ch ∈ alignChars 16 u.timeLow 8, isHexDigit ch = true := fun ch hch =>
    lowerHex_isHexDigit ch (alignChars_lowerHex 16 (by norm_num) (by norm_num)
      u.timeLow 8 pa0 ch hch)
  have X2 : ∀ ch ∈ alignChars 16 u.timeMid 4, isHexDigit ch = true := fun ch hch =>
    lowerHex_isHexDigit ch (alignChars_lowerHex 16 (by norm_num) (by norm_num)
      u.timeMid 4 pb0 ch hch)
  have X3 : ∀ ch ∈ alignChars 16 u.timeHiAndVersion 4, isHexDigit ch = true :=
    fun ch hch => lowerHex_isHexDigit ch (alignChars_lowerHex 16 (by norm_num)
      (by norm_num) u.timeHiAndVersion 4 pc0 ch hch)
  have X4 : ∀ ch ∈ alignChars 16 u.clockSeqHiAndReserved 2, isHexDigit ch = true :=
    fun ch hch => lowerHex_isHexDigit ch (alignChars_lowerHex 16 (by norm_num)
      (by norm_num) u.clockSeqHiAndReserved 2 pd0 ch hch)
  have X5 : ∀ ch ∈ alignChars 16 u.clockSeqLow 2, isHexDigit ch = true :=
    fun ch hch => lowerHex_isHexDigit ch (alignChars_lowerHex 16 (by norm_num)
      (by norm_num) u.clockSeqLow 2 pe0 ch hch)
  have X6 : ∀ ch ∈ alignChars 16 u.node 12, isHexDigit ch = true := fun ch hch =>
    lowerHex_isHexDigit ch (alignChars_lowerHex 16 (by norm_num) (by norm_num)
      u.node 12 pf0 ch hch)
  rw [parseChars_bare _ _ _ _ _ _ L1 L2 L3 L4 L5 L6 X1 X2 X3 X4 X5 X6]
  have V1 : ((hexVal (alignChars 16 u.timeLow 8) : Nat) : Int) = u.timeLow := by
    rw [hexVal_alignChars u.timeLow 8 pa0, Int.toNat_of_nonneg pa0]
  have V2 : ((hexVal (alignChars 16 u.timeMid 4) : Nat) : Int) = u.timeMid := by
    rw [hexVal_alignChars u.timeMid 4 pb0, Int.toNat_of_nonneg pb0]
  have V3 : ((hexVal (alignChars 16 u.timeHiAndVersion 4) : Nat) : Int)
      = u.timeHiAndVersion := by
    rw [hexVal_alignChars u.timeHiAndVersion 4 pc0, Int.toNat_of_nonneg pc0]
  have V4 : ((hexVal (alignChars 16 u.clockSeqHiAndReserved 2) : Nat) : Int)
      = u.clockSeqHiAndReserved := by
    rw [hexVal_alignChars u.clockSeqHiAndReserved 2 pd0, Int.toNat_of_nonneg pd0]
  have V5 : ((hexVal (alignChars 16 u.clockSeqLow 2) : Nat) : Int)
      = u.clockSeqLow := by
    rw [hexVal_alignChars u.clockSeqLow 2 pe0, Int.toNat_of_nonneg pe0]
  have V6 : ((hexVal (alignChars 16 u.node 12) : Nat) : Int) = u.node := by
    rw [hexVal_alignChars u.node 12 pf0, Int.toNat_of_nonneg pf0]
  rw [V1, V2, V3, V4, V5, V6]

/-- C2 witness: the in-width tuple (1, 2, 3, 4, 5, 6) round-trips. -/
theorem c2_witness :
    parse (UUID.hexString ⟨((1 : Nat) : Int), ((2 : Nat) : Int),
        ((3 : Nat) : Int), ((4 : Nat) : Int), ((5 : Nat) : Int),
        ((6 : Nat) : Int)⟩)
      = some ⟨((1 : Nat) : Int), ((2 : Nat) : Int), ((3 : Nat) : Int),
          ((4 : Nat) : Int), ((5 : Nat) : Int), ((6 : Nat) : Int)⟩ :=
  c2_roundtrip 1 2 3 4 5 6 (by norm_num) (by norm_num) (by norm_num)
    (by norm_num) (by norm_num) (by norm_num)

/-- C6: `parse` never throws (it is a total function into `Option`, `none`
modelling the null result); every accepted string decomposes into optional
whitespace around a consistent prefix/suffix pairing — none, matched
`{`/`}`, or a case variant of `urn:uuid:` with no trailing brace — enclosing
a valid hex core; and on every valid hex core the three consistent pairings
succeed while `{` without `}`, a dangling `}`, and `urn:uuid:` with a
trailing `}` all fail even though the hex groups match. -/
theorem c6_prefix_suffix_pairing :
    (∀ (s : List Char) (u : UUID), parseChars s = some u → ConsistentShape s) ∧
    (∀ core : List Char, ValidCoreChars core →
      (∃ u, parseChars core = some u) ∧
      (∃ u, parseChars ('{' :: core ++ ['}']) = some u) ∧
      (∃ u, parseChars (urnPat ++ core) = some u) ∧
      parseChars ('{' :: core) = none ∧
      parseChars (core ++ ['}']) = none ∧
      parseChars (urnPat ++ core ++ ['}']) = none) := by
  refine ⟨parseChars_sound, fun core hcore => ?_⟩
  obtain ⟨g1, g2, g3, g4, g5, g6, rfl, h1, h2, h3, h4, h5, h6,
    x1, x2, x3, x4, x5, x6⟩ := hcore
  exact ⟨⟨_, parseChars_bare g1 g2 g3 g4 g5 g6 h1 h2 h3 h4 h5 h6
        x1 x2 x3 x4 x5 x6⟩,
    ⟨_, parseChars_braced g1 g2 g3 g4 g5 g6 h1 h2 h3 h4 h5 h6
        x1 x2 x3 x4 x5 x6⟩,
    ⟨_, parseChars_urn g1 g2 g3 g4 g5 g6 h1 h2 h3 h4 h5 h6
        x1 x2 x3 x4 x5 x6⟩,
    parseChars_brace_open g1 g2 g3 g4 g5 g6 h1 h2 h3 h4 h5 h6
      x1 x2 x3 x4 x5 x6,
    parseChars_dangling g1 g2 g3 g4 g5 g6 h1 h2 h3 h4 h5 h6
      x1 x2 x3 x4 x5 x6,
    parseChars_urn_brace g1 g2 g3 g4 g5 g6 h1 h2 h3 h4 h5 h6
      x1 x2 x3 x4 x5 x6⟩

/-- C6 witness: the core `01234567-89ab-4def-8123-456789abcdef` — its bare
parse is accepted (hence has a consistent shape), and all six pairing
combinations behave as the theorem states. -/
theorem c6_witness :
    ConsistentShape ("01234567-89ab-4def-8123-456789abcdef".data) ∧
    ((∃ u, parseChars ("01234567-89ab-4def-8123-456789abcdef".data) = some u) ∧
      (∃ u, parseChars
        ('{' :: "01234567-89ab-4def-8123-456789abcdef".data ++ ['}']) = some u) ∧
      (∃ u, parseChars
        (urnPat ++ "01234567-89ab-4def-8123-456789abcdef".data) = some u) ∧
      parseChars ('{' :: "01234567-89ab-4def-8123-456789abcdef".data) = none ∧
      parseChars ("01234567-89ab-4def-8123-456789abcdef".data ++ ['}']) = none ∧
      parseChars
        (urnPat ++ "01234567-89ab-4def-8123-456789abcdef".data ++ ['}'])
        = none) :=
  ⟨c6_prefix_suffix_pairing.1 "01234567-89ab-4def-8123-456789abcdef".data
      ⟨19088743, 35243, 19951, 129, 35, 76310993685999⟩ (by decide),
   c6_prefix_suffix_pairing.2 "01234567-89ab-4def-8123-456789abcdef".data
      ⟨"01234567".data, "89ab".data, "4def".data, "81".data, "23".data,
        "456789abcdef".data, by decide, by decide, by decide, by decide,
        by decide, by decide, by decide, by decide, by decide, by decide,
        by decide, by decide, by decide⟩⟩
